import Mathlib

/-!
Verification development for the Suggestion Application Engine of the
ai-refactor-tutor repository.  The engine lives in the apply API route
(`src/unnamed/part_004`, a version of `src/app/api/apply/route.ts`): it parses
a JavaScript snippet with Babel, walks the tree with a single `enter` visitor,
applies at most one rewrite driven by a structured suggestion (with a regex
fallback over the suggestion's free-form text), and regenerates source text.

The development shallowly embeds the JavaScript fragment the engine's rules
inspect (variable declarations, assignments, binary expressions, member
accesses, `console.log` calls, object literals, template literals, function
declarations), Babel's scope information as the engine consumes it
(`hasBinding`, `getBinding(...).constant`, `scope.rename`), the `enter`
visitor's two tiers, the traversal's stop semantics, and the HTTP handler's
validation and result assembly.
-/

namespace Refactor

/-! ## Abstract syntax

Mutual inductives mirroring the Babel node shapes the engine's rules touch.
Member accesses store the (non-computed) property name as a string, and object
literal properties store their (identifier) key as a string — matching
`t.isIdentifier(node.property)` / non-computed `ObjectProperty` keys.
Numeric literals keep their raw text.
-/

mutual

inductive Expr where
  | ident (name : String)
  | numLit (raw : String)
  | strLit (value : String)
  | bin (op : String) (l r : Expr)
  | assign (op : String) (l r : Expr)
  | member (obj : Expr) (prop : String)
  | call (callee : Expr) (args : ExprList)
  | objectLit (props : PropList)
  | tmpl (quasis : List String) (exprs : ExprList)
  deriving DecidableEq, Repr

inductive ExprList where
  | nil
  | cons (e : Expr) (rest : ExprList)
  deriving DecidableEq, Repr

inductive PropList where
  | nil
  | cons (key : String) (value : Expr) (rest : PropList)
  deriving DecidableEq, Repr

end

/-- An optional initializer / return argument (kept as its own inductive so the
statement family below stays a plain mutual group). -/
inductive OptExpr where
  | noneE
  | someE (e : Expr)
  deriving DecidableEq, Repr

mutual

inductive Stmt where
  | varDecl (kind : String) (decls : DeclList)
  | exprStmt (e : Expr)
  | funcDecl (name : String) (params : List String) (body : StmtList)
  | ret (arg : OptExpr)
  deriving DecidableEq, Repr

inductive StmtList where
  | nil
  | cons (s : Stmt) (rest : StmtList)
  deriving DecidableEq, Repr

inductive DeclList where
  | cons1 (name : String) (init : OptExpr) (rest : DeclList)
  | nil
  deriving DecidableEq, Repr

end

/-- A parsed module: the Babel `Program` node's statement list. -/
abbrev Program := StmtList

/-! ## Suggestions

The `StructuredSuggestion` interface of the route: `suggestion` (free text,
used only by the regex fallback; modelled as `Option` because the engine calls
`.match` on it and a missing field makes that throw — the throw is swallowed
by the per-node `catch`, i.e. the fallback tier does nothing), `type`, and
`params` (string-valued entries only, as extracted by `getParam`).  The
`explanation` field is only logged and is omitted. -/
structure Suggestion where
  suggestion : Option String
  type : String
  params : List (String × String)
  deriving DecidableEq, Repr

/-- `getParam(params, key)`: the string value at `key`, if any. -/
def getParam (params : List (String × String)) (key : String) : Option String :=
  match params with
  | [] => none
  | (k, v) :: rest => if k = key then some v else getParam rest key

/-! ## Scopes and bindings

Babel computes scope information before traversal.  The engine consumes three
facts about a name resolved through the scope chain: whether it has a binding
(`hasBinding`), whether the binding's declaring node is a function declaration
(`binding.path.type === 'FunctionDeclaration'`), and whether the binding is
`constant` (no reassignments — `constantViolations` empty).  Scope chains are
lists of frames, innermost first; the program scope is always last. -/

inductive BindKind where
  | blet
  | bconst
  | bvar
  | bfunc
  | bparam
  deriving DecidableEq, Repr

structure Binding where
  kind : BindKind
  constant : Bool
  deriving DecidableEq, Repr

abbrev Frame := List (String × Binding)

abbrev Env := List Frame

def lookupFrame (f : Frame) (x : String) : Option Binding :=
  match f with
  | [] => none
  | (n, b) :: rest => if n = x then some b else lookupFrame rest x

def getBinding (env : Env) (x : String) : Option Binding :=
  match env with
  | [] => none
  | f :: rest =>
    match lookupFrame f x with
    | some b => some b
    | none => getBinding rest x

def hasBinding (env : Env) (x : String) : Bool :=
  (getBinding env x).isSome

/-- Depth (frame index, innermost = 0) at which `x` resolves. -/
def depthOf (env : Env) (x : String) : Nat :=
  match env with
  | [] => 0
  | f :: rest =>
    match lookupFrame f x with
    | some _ => 0
    | none => depthOf rest x + 1

/-- Whether the binding of `x` in `env` was created by a function declaration
(the engine's `binding?.path.type !== 'FunctionDeclaration'` guard). -/
def isFuncBinding (env : Env) (x : String) : Bool :=
  match getBinding env x with
  | some b => b.kind = BindKind.bfunc
  | none => false

/-! Reassignment analysis (Babel's `constantViolations`): an assignment whose
left-hand side is the identifier `x` violates constancy of `x`'s binding.  A
nested function whose parameters or own declarations rebind `x` shadows the
outer binding, so assignments inside it target the inner binding and are
skipped. -/

mutual

def assignsToInExpr (x : String) : Expr → Bool
  | .ident _ => false
  | .numLit _ => false
  | .strLit _ => false
  | .bin _ l r => assignsToInExpr x l || assignsToInExpr x r
  | .assign _ l r =>
    (match l with
     | .ident n => n = x
     | _ => false) || assignsToInExpr x l || assignsToInExpr x r
  | .member o _ => assignsToInExpr x o
  | .call c args => assignsToInExpr x c || assignsToInExprList x args
  | .objectLit props => assignsToInProps x props
  | .tmpl _ es => assignsToInExprList x es

def assignsToInExprList (x : String) : ExprList → Bool
  | .nil => false
  | .cons e rest => assignsToInExpr x e || assignsToInExprList x rest

def assignsToInProps (x : String) : PropList → Bool
  | .nil => false
  | .cons _ v rest => assignsToInExpr x v || assignsToInProps x rest

end

def assignsToInOpt (x : String) : OptExpr → Bool
  | .noneE => false
  | .someE e => assignsToInExpr x e

/-! `declaresAtTop x ss`: does the top level of this statement list declare `x`
(a `var`/`let`/`const` declarator or a function declaration named `x`)? -/

mutual

def declaresAtTop (x : String) : StmtList → Bool
  | .nil => false
  | .cons s rest => declaresStmt x s || declaresAtTop x rest

def declaresStmt (x : String) : Stmt → Bool
  | .varDecl _ ds => declaresDecls x ds
  | .funcDecl n _ _ => n = x
  | .exprStmt _ => false
  | .ret _ => false

def declaresDecls (x : String) : DeclList → Bool
  | .nil => false
  | .cons1 n _ rest => n = x || declaresDecls x rest

end

mutual

def reassignedInStmts (x : String) : StmtList → Bool
  | .nil => false
  | .cons s rest => reassignedInStmt x s || reassignedInStmts x rest

def reassignedInStmt (x : String) : Stmt → Bool
  | .varDecl _ ds => reassignedInDecls x ds
  | .exprStmt e => assignsToInExpr x e
  | .funcDecl _ ps body =>
    if ps.contains x || declaresAtTop x body then false
    else reassignedInStmts x body
  | .ret a => assignsToInOpt x a

def reassignedInDecls (x : String) : DeclList → Bool
  | .nil => false
  | .cons1 _ init rest => assignsToInOpt x init || reassignedInDecls x rest

end

def kindOfString (k : String) : BindKind :=
  if k = "let" then .blet else if k = "const" then .bconst else .bvar

/-! `topDecls`: the declarations a statement list contributes to its scope
frame. -/

mutual

def topDecls : StmtList → List (String × BindKind)
  | .nil => []
  | .cons s rest => topDeclsStmt s ++ topDecls rest

def topDeclsStmt : Stmt → List (String × BindKind)
  | .varDecl k ds => topDeclsDecls (kindOfString k) ds
  | .funcDecl n _ _ => [(n, .bfunc)]
  | .exprStmt _ => []
  | .ret _ => []

def topDeclsDecls (k : BindKind) : DeclList → List (String × BindKind)
  | .nil => []
  | .cons1 n _ rest => (n, k) :: topDeclsDecls k rest

end

/-- The scope frame of a block: every top-level declaration with its
constancy computed over the whole block. -/
def frameOfBlock (ss : StmtList) : Frame :=
  (topDecls ss).map (fun nk => (nk.1, ⟨nk.2, !reassignedInStmts nk.1 ss⟩))

/-- The scope frame of a function: parameters plus the body's declarations
(Babel attaches a function body's bindings to the function scope). -/
def frameOfFunction (ps : List String) (body : StmtList) : Frame :=
  ps.map (fun p => (p, ⟨BindKind.bparam, !reassignedInStmts p body⟩)) ++
    frameOfBlock body

/-! ## The regex fallback patterns

The fallback tier matches the free-form suggestion text against three
JavaScript regular expressions (all with the `i` flag):

  1. anchored `Rename <q>(\w+)<q> .* <q>(\w+)<q>` (with `<q>` an apostrophe);
  2. unanchored `function name instead of <q>(\w+)<q>.*like <q>(\w+)<q>`;
  3. unanchored
     `Replace <q>(\w+)\s*=\s*\1\s*([+\-*\/])\s*(.*?)<q> with <q>\1\s*([+\-*\/]=)\s*.*<q>`.

A small backtracking matcher over exactly the token shapes those patterns use
reproduces JavaScript `String.match` semantics: greedy `\w+`/`.*`/`\s*`
(longest first), lazy `(.*?)` (shortest first), case-insensitive literals and
backreferences, `.` excluding line terminators, leftmost match for the
unanchored patterns. -/

def q : Char := Char.ofNat 39

def nlChar : Char := Char.ofNat 10

def crChar : Char := Char.ofNat 13

def tabChar : Char := Char.ofNat 9

/-- Wrap a string in apostrophes. -/
def quo (s : String) : String := ⟨q :: (s.data ++ [q])⟩

def isWordChar (c : Char) : Bool := c.isAlphanum || c = Char.ofNat 95

def isOpChar (c : Char) : Bool := c = '+' || c = '-' || c = '*' || c = '/'

def isWsChar (c : Char) : Bool := c = ' ' || c = tabChar || c = nlChar || c = crChar

inductive RTok where
  | lit (cs : List Char)
  | capWord
  | dotStar
  | lazyCap
  | wsStar
  | capOp
  | capOpEq
  | backref (n : Nat)

/-- Strip `l` from the front of `s`, comparing case-insensitively. -/
def stripCI : List Char → List Char → Option (List Char)
  | [], s => some s
  | _ :: _, [] => none
  | c :: cs, d :: ds => if c.toLower = d.toLower then stripCI cs ds else none

def wordRun : List Char → Nat
  | [] => 0
  | c :: rest => if isWordChar c then wordRun rest + 1 else 0

def nonNlRun : List Char → Nat
  | [] => 0
  | c :: rest => if c = nlChar || c = crChar then 0 else nonNlRun rest + 1

def wsRun : List Char → Nat
  | [] => 0
  | c :: rest => if isWsChar c then wsRun rest + 1 else 0

/-- `[n, n-1, ..., 1]`: the consumption lengths a greedy one-or-more tries. -/
def downFrom (n : Nat) : List Nat := (List.range n).reverse.map (· + 1)

/-- The ways a single token can consume a prefix of `s`, in the order the
regex engine tries them; each choice carries the remaining input and the
capture list so far. -/
def choicesFor (t : RTok) (s : List Char) (caps : List (List Char)) :
    List (List Char × List (List Char)) :=
  match t with
  | .lit l =>
    match stripCI l s with
    | some rest => [(rest, caps)]
    | none => []
  | .capWord => (downFrom (wordRun s)).map (fun k => (s.drop k, caps ++ [s.take k]))
  | .dotStar => ((List.range (nonNlRun s + 1)).reverse).map (fun k => (s.drop k, caps))
  | .lazyCap => (List.range (nonNlRun s + 1)).map (fun k => (s.drop k, caps ++ [s.take k]))
  | .wsStar => ((List.range (wsRun s + 1)).reverse).map (fun k => (s.drop k, caps))
  | .capOp =>
    match s with
    | c :: rest => if isOpChar c then [(rest, caps ++ [[c]])] else []
    | [] => []
  | .capOpEq =>
    match s with
    | c :: e :: rest => if isOpChar c && e = '=' then [(rest, caps ++ [[c, e]])] else []
    | _ => []
  | .backref n =>
    match caps.get? (n - 1) with
    | some w =>
      match stripCI w s with
      | some rest => [(rest, caps)]
      | none => []
    | none => []

/-- Depth-first backtracking over a stack of alternatives, each a (remaining
pattern, remaining input, captures) state; children of the current state are
pushed in preference order, so the first success found is the one the
backtracking regex engine reports.  The fuel argument only makes the recursion
structural; `matchSeq` supplies a bound that dominates the size of the whole
search tree, so the fuel never runs out. -/
def mrun : Nat → List (List RTok × List Char × List (List Char)) →
    Option (List (List Char))
  | _, [] => none
  | 0, _ :: _ => none
  | fuel + 1, (ts, s, caps) :: alts =>
    match ts with
    | [] => some caps
    | t :: rest =>
      mrun fuel (((choicesFor t s caps).map (fun c => (rest, c.1, c.2))) ++ alts)

/-- Match a token sequence against a prefix of `s` (anchored): every node of
the search tree has at most `s.length + 2` children and the tree has depth at
most `ts.length`, so `(s.length + 2) ^ (ts.length + 1) + 1` pops exhaust it. -/
def matchSeq (ts : List RTok) (s : List Char) (caps : List (List Char)) :
    Option (List (List Char)) :=
  mrun ((s.length + 2) ^ (ts.length + 1) + 1) [(ts, s, caps)]

/-- Leftmost unanchored match: try each start position from the left. -/
def searchSeq (ts : List RTok) (s : List Char) : Option (List (List Char)) :=
  match matchSeq ts s [] with
  | some r => some r
  | none =>
    match s with
    | [] => none
    | _ :: rest => searchSeq ts rest

def pat1 : List RTok :=
  [.lit ("Rename ".data ++ [q]), .capWord, .lit ([q] ++ " ".data), .dotStar,
   .lit (" ".data ++ [q]), .capWord, .lit [q]]

def pat2 : List RTok :=
  [.lit ("function name instead of ".data ++ [q]), .capWord, .lit [q], .dotStar,
   .lit ("like ".data ++ [q]), .capWord, .lit [q]]

def pat3 : List RTok :=
  [.lit ("Replace ".data ++ [q]), .capWord, .wsStar, .lit "=".data, .wsStar,
   .backref 1, .wsStar, .capOp, .wsStar, .lazyCap,
   .lit ([q] ++ " with ".data ++ [q]), .backref 1, .wsStar, .capOpEq, .wsStar,
   .dotStar, .lit [q]]

/-- `suggestion.suggestion.match(/^Rename <q>(\w+)<q> .* <q>(\w+)<q>/i)`,
reduced to its two capture groups. -/
def variableRenameMatch (txt : String) : Option (String × String) :=
  match matchSeq pat1 txt.data [] with
  | some (a :: b :: _) => some (⟨a⟩, ⟨b⟩)
  | _ => none

/-- `suggestion.suggestion.match(/function name instead of <q>(\w+)<q>.*like <q>(\w+)<q>/i)`,
reduced to its two capture groups. -/
def functionRenameMatch (txt : String) : Option (String × String) :=
  match searchSeq pat2 txt.data with
  | some (a :: b :: _) => some (⟨a⟩, ⟨b⟩)
  | _ => none

/-- The operator-shortcut regex, reduced to the two capture groups the engine
reads: group 1 (the variable) and group 4 (the compound operator). -/
def operatorShortcutMatch (txt : String) : Option (String × String) :=
  match searchSeq pat3 txt.data with
  | some (g1 :: _ :: _ :: g4 :: _) => some (⟨g1⟩, ⟨g4⟩)
  | _ => none

/-- No fallback pattern fires on this suggestion text (a missing text always
counts: `.match` on a missing field throws and the throw is swallowed). -/
def fallbackSilent (txt : Option String) : Bool :=
  match txt with
  | none => true
  | some t =>
    (variableRenameMatch t).isNone && (functionRenameMatch t).isNone &&
      (operatorShortcutMatch t).isNone

/-! ## `scope.rename`

Babel's `Scope.rename(oldName, newName)` (via its `Renamer`) rewrites the
binding identifier and every reference and reassignment site of the binding,
without any check that `newName` is free.  Property keys and non-computed
member property names are not references and are untouched.  A nested function
whose parameters or own declarations rebind the name shadows the binding, so
its body is left alone (a nested function *named* `oldName` is itself the
binding's declaration and is renamed). -/

mutual

def renameExpr (o n : String) : Expr → Expr
  | .ident x => .ident (if x = o then n else x)
  | .numLit r => .numLit r
  | .strLit v => .strLit v
  | .bin op l r => .bin op (renameExpr o n l) (renameExpr o n r)
  | .assign op l r => .assign op (renameExpr o n l) (renameExpr o n r)
  | .member obj p => .member (renameExpr o n obj) p
  | .call c args => .call (renameExpr o n c) (renameExprList o n args)
  | .objectLit props => .objectLit (renameProps o n props)
  | .tmpl qs es => .tmpl qs (renameExprList o n es)

def renameExprList (o n : String) : ExprList → ExprList
  | .nil => .nil
  | .cons e rest => .cons (renameExpr o n e) (renameExprList o n rest)

def renameProps (o n : String) : PropList → PropList
  | .nil => .nil
  | .cons k v rest => .cons k (renameExpr o n v) (renameProps o n rest)

end

def renameOpt (o n : String) : OptExpr → OptExpr
  | .noneE => .noneE
  | .someE e => .someE (renameExpr o n e)

def renameParams (o n : String) (ps : List String) : List String :=
  ps.map (fun p => if p = o then n else p)

mutual

def renameStmts (o n : String) : StmtList → StmtList
  | .nil => .nil
  | .cons s rest => .cons (renameStmt o n s) (renameStmts o n rest)

def renameStmt (o n : String) : Stmt → Stmt
  | .varDecl k ds => .varDecl k (renameDecls o n ds)
  | .exprStmt e => .exprStmt (renameExpr o n e)
  | .funcDecl f ps body =>
    .funcDecl (if f = o then n else f) ps
      (if ps.contains o || declaresAtTop o body then body else renameStmts o n body)
  | .ret a => .ret (renameOpt o n a)

def renameDecls (o n : String) : DeclList → DeclList
  | .nil => .nil
  | .cons1 name init rest =>
    .cons1 (if name = o then n else name) (renameOpt o n init) (renameDecls o n rest)

end

/-! ## The `enter` visitor

`NodeView` classifies the node a visit inspects with exactly the data the
engine's predicates read.  `Hit` is the outcome of a successful rule: a
mutation of the enclosing declaration's kind, a scope rename (`depth` is the
frame index of the scope the rename targets), a replacement of the current
expression node, or (spec-modelled only) an object-property rewrite. -/

inductive NodeView where
  | programV
  | stmtV (s : Stmt)
  | declaratorV (declKind : String) (name : String)
  | exprV (e : Expr)
  | propV (key : String) (encl : Option String)
  deriving DecidableEq, Repr

inductive Hit where
  | mkConst
  | renameScope (depth : Nat) (old new : String)
  | replaceExpr (e : Expr)
  | propKey (newKey : String)
  | memberProp (newProp : String)
  deriving DecidableEq, Repr

/-- The operator-pairing check of USE_OPERATOR_SHORTCUT:
`(operator === "+=" && op === "+") || ...` over the four arithmetic ops. -/
def compoundMatches (op bop : String) : Bool :=
  (op = "+=" && bop = "+") || (op = "-=" && bop = "-") ||
    (op = "*=" && bop = "*") || (op = "/=" && bop = "/")

/-- Tier 1: dispatch on `suggestion.type` (the if/else-if chain of the route).
Parameters extracted with `getParam` are also checked nonempty, mirroring the
JavaScript truthiness tests (`if (oldName && newName && ...)`). -/
def applyByType (sugg : Suggestion) (env : Env) (v : NodeView) : Option Hit :=
  if sugg.type = "USE_CONST" then
    match getParam sugg.params "variableName", v with
    | some varName, .declaratorV declKind name =>
      if varName ≠ "" ∧ name = varName ∧ declKind = "let" ∧
          (getBinding env varName).map Binding.constant = some true
      then some .mkConst else none
    | _, _ => none
  else if sugg.type = "RENAME_VARIABLE" then
    match getParam sugg.params "oldName", getParam sugg.params "newName" with
    | some o, some n =>
      if o ≠ "" ∧ n ≠ "" ∧ hasBinding env o = true ∧ isFuncBinding env o = false
      then some (.renameScope (depthOf env o) o n) else none
    | _, _ => none
  else if sugg.type = "RENAME_FUNCTION" then
    match getParam sugg.params "oldName", getParam sugg.params "newName", v with
    | some o, some n, .stmtV (.funcDecl name _ _) =>
      -- at a FunctionDeclaration node `path.scope` is the function's own
      -- scope, so `path.scope.parent` is `env.tail` (never empty: the program
      -- scope encloses every function)
      if o ≠ "" ∧ n ≠ "" ∧ name = o ∧ hasBinding env.tail o = true
      then some (.renameScope (depthOf env.tail o + 1) o n) else none
    | _, _, _ => none
  else if sugg.type = "USE_TEMPLATE_LITERAL" then
    match v with
    | .exprV (.call (.member (.ident "console") "log") (.cons firstArg restArgs)) =>
      match firstArg with
      | .bin "+" (.strLit s) (.ident x) =>
        some (.replaceExpr (.call (.member (.ident "console") "log")
          (.cons (.tmpl [s, ""] (.cons (.ident x) .nil)) restArgs)))
      | .bin "+" (.ident x) (.strLit s) =>
        some (.replaceExpr (.call (.member (.ident "console") "log")
          (.cons (.tmpl ["", s] (.cons (.ident x) .nil)) restArgs)))
      | _ => none
    | _ => none
  else if sugg.type = "USE_OPERATOR_SHORTCUT" then
    match getParam sugg.params "operator", getParam sugg.params "variable", v with
    | some op, some w, .exprV (.assign "=" (.ident lv) (.bin bop (.ident rv) rhs)) =>
      if op ≠ "" ∧ w ≠ "" ∧ lv = w ∧ rv = w ∧ compoundMatches op bop = true
      then some (.replaceExpr (.assign op (.ident lv) rhs)) else none
    | _, _, _ => none
  else none

/-- Tier 2: the regex fallback over the free-form suggestion text, tried only
when tier 1 produced nothing at this node.  The three matches are branched on
with if/else-if, so a successful first match shadows the later patterns even
when its inner conditions fail. -/
def applyByRegex (sugg : Suggestion) (env : Env) (v : NodeView) : Option Hit :=
  match sugg.suggestion with
  | none => none
  | some txt =>
    match variableRenameMatch txt with
    | some (o, n) =>
      if hasBinding env o = true ∧ isFuncBinding env o = false
      then some (.renameScope (depthOf env o) o n) else none
    | none =>
      match functionRenameMatch txt with
      | some (o, n) =>
        match v with
        | .stmtV (.funcDecl name _ _) =>
          if name = o ∧ hasBinding env.tail o = true
          then some (.renameScope (depthOf env.tail o + 1) o n) else none
        | _ => none
      | none =>
        match operatorShortcutMatch txt with
        | some (w, op) =>
          match v with
          | .exprV (.assign "=" (.ident lv) (.bin bop (.ident rv) rhs)) =>
            if lv = w ∧ rv = w ∧ compoundMatches op bop = true
            then some (.replaceExpr (.assign op (.ident lv) rhs)) else none
          | _ => none
        | none => none

/-- The `enter` callback of the route: both tiers run only while no
transformation has been applied yet. -/
def enterRoute (sugg : Suggestion) (applied : Bool) (env : Env) (v : NodeView) :
    Option Hit :=
  if applied then none
  else
    match applyByType sugg env v with
    | some h => some h
    | none => applyByRegex sugg env v

abbrev EnterFn := Bool → Env → NodeView → Option Hit

/-! ## The traversal

A pre-order walk with the route's control state: `applied` is the shared
`transformationApplied` flag, `stopped` is Babel's `path.stop()`.  Every visit
is a no-op once `stopped` holds.  A pending scope rename (depth, old, new)
travels upward until the frame it targets is reached; since every rename stops
the traversal it is the invocation's only mutation. -/

structure St where
  applied : Bool
  stopped : Bool
  deriving DecidableEq, Repr

abbrev Rn := Nat × String × String

def orRn : Option Rn → Option Rn → Option Rn
  | some r, _ => some r
  | none, r => r

/-- Visit a node at which the only possible hit is a scope rename (the program
node, statement nodes other than matched shapes, bare identifiers). -/
def visitLeaf (f : EnterFn) (env : Env) (st : St) (v : NodeView) : St × Option Rn :=
  if st.stopped then (st, none)
  else
    match f st.applied env v with
    | some (.renameScope d o n) => (⟨true, true⟩, some (d, o, n))
    | some _ => (st, none)
    | none => (st, none)

/-- The enter-dispatch at an expression node that is not a property access:
a replacement replaces the node and stops; a scope rename stops and travels
upward; other hits cannot target this node. -/
def exprHitStep (e : Expr) (st : St) (h : Option Hit)
    (kids : Expr × St × Option Rn) : Expr × St × Option Rn :=
  match h with
  | some (.replaceExpr e2) => (e2, ⟨true, true⟩, none)
  | some (.renameScope d o n) => (e, ⟨true, true⟩, some (d, o, n))
  | some _ => (e, st, none)
  | none => kids

mutual

def visitExpr (f : EnterFn) (env : Env) (dn : Option String) :
    Expr → St → Expr × St × Option Rn
  | .ident x, st =>
    if st.stopped then (.ident x, st, none)
    else exprHitStep (.ident x) st (f st.applied env (.exprV (.ident x)))
      (.ident x, st, none)
  | .numLit r, st =>
    if st.stopped then (.numLit r, st, none)
    else exprHitStep (.numLit r) st (f st.applied env (.exprV (.numLit r)))
      (.numLit r, st, none)
  | .strLit v, st =>
    if st.stopped then (.strLit v, st, none)
    else exprHitStep (.strLit v) st (f st.applied env (.exprV (.strLit v)))
      (.strLit v, st, none)
  | .bin op l r, st =>
    if st.stopped then (.bin op l r, st, none)
    else
      exprHitStep (.bin op l r) st (f st.applied env (.exprV (.bin op l r)))
        (let rl := visitExpr f env dn l st
         let rr := visitExpr f env dn r rl.2.1
         (.bin op rl.1 rr.1, rr.2.1, orRn rl.2.2 rr.2.2))
  | .assign op l r, st =>
    if st.stopped then (.assign op l r, st, none)
    else
      exprHitStep (.assign op l r) st (f st.applied env (.exprV (.assign op l r)))
        (let rl := visitExpr f env dn l st
         let rr := visitExpr f env dn r rl.2.1
         (.assign op rl.1 rr.1, rr.2.1, orRn rl.2.2 rr.2.2))
  | .member obj p, st =>
    if st.stopped then (.member obj p, st, none)
    else
      match f st.applied env (.exprV (.member obj p)) with
      | some (.replaceExpr e2) => (e2, ⟨true, true⟩, none)
      | some (.renameScope d o n) => (.member obj p, ⟨true, true⟩, some (d, o, n))
      | some (.memberProp np) =>
        -- spec-modelled usage-site rename: rewrite the accessed property
        -- name, set the applied flag, continue traversing (no stop)
        let r := visitExpr f env dn obj ⟨true, st.stopped⟩
        (.member r.1 np, r.2.1, r.2.2)
      | some _ => (.member obj p, st, none)
      | none =>
        let ro := visitExpr f env dn obj st
        let rp := visitLeaf f env ro.2.1 (.exprV (.ident p))
        (.member ro.1 p, rp.1, orRn ro.2.2 rp.2)
  | .call c args, st =>
    if st.stopped then (.call c args, st, none)
    else
      exprHitStep (.call c args) st (f st.applied env (.exprV (.call c args)))
        (let rc := visitExpr f env dn c st
         let ra := visitExprList f env dn args rc.2.1
         (.call rc.1 ra.1, ra.2.1, orRn rc.2.2 ra.2.2))
  | .objectLit props, st =>
    if st.stopped then (.objectLit props, st, none)
    else
      exprHitStep (.objectLit props) st (f st.applied env (.exprV (.objectLit props)))
        (let rp := visitProps f env dn props st
         (.objectLit rp.1, rp.2.1, rp.2.2))
  | .tmpl qs es, st =>
    if st.stopped then (.tmpl qs es, st, none)
    else
      exprHitStep (.tmpl qs es) st (f st.applied env (.exprV (.tmpl qs es)))
        (let re := visitExprList f env dn es st
         (.tmpl qs re.1, re.2.1, re.2.2))

def visitExprList (f : EnterFn) (env : Env) (dn : Option String) :
    ExprList → St → ExprList × St × Option Rn
  | .nil, st => (.nil, st, none)
  | .cons e rest, st =>
    let r1 := visitExpr f env dn e st
    let r2 := visitExprList f env dn rest r1.2.1
    (.cons r1.1 r2.1, r2.2.1, orRn r1.2.2 r2.2.2)

def visitProps (f : EnterFn) (env : Env) (dn : Option String) :
    PropList → St → PropList × St × Option Rn
  | .nil, st => (.nil, st, none)
  | .cons k val rest, st =>
    if st.stopped then (.cons k val rest, st, none)
    else
      match f st.applied env (.propV k dn) with
      | some (.propKey nk) =>
        -- spec-modelled definition-site rename: rewrite the key, skip this
        -- property's subtree, continue with the remaining properties
        let rr := visitProps f env dn rest ⟨true, st.stopped⟩
        (.cons nk val rr.1, rr.2.1, rr.2.2)
      | some (.renameScope d o n) => (.cons k val rest, ⟨true, true⟩, some (d, o, n))
      | some _ => (.cons k val rest, st, none)
      | none =>
        let r1 := visitLeaf f env st (.exprV (.ident k))
        let r2 := visitExpr f env dn val r1.1
        let r3 := visitProps f env dn rest r2.2.1
        (.cons k r2.1 r3.1, r3.2.1, orRn r1.2 (orRn r2.2.2 r3.2.2))

end

/-- Visit the parameter identifier nodes of a function. -/
def visitParams (f : EnterFn) (env : Env) (ps : List String) (st : St) :
    St × Option Rn :=
  match ps with
  | [] => (st, none)
  | p :: rest =>
    let r1 := visitLeaf f env st (.exprV (.ident p))
    let r2 := visitParams f env rest r1.1
    (r2.1, orRn r1.2 r2.2)

/-- Visit an optional initializer (the declarator's `init` child). -/
def visitOpt (f : EnterFn) (env : Env) (dn : Option String) :
    OptExpr → St → OptExpr × St × Option Rn
  | .noneE, st => (.noneE, st, none)
  | .someE e, st =>
    let re := visitExpr f env dn e st
    (.someE re.1, re.2.1, re.2.2)

mutual

def visitStmt (f : EnterFn) (env : Env) : Stmt → St → Stmt × St × Option Rn
  | .funcDecl name ps body, st =>
    if st.stopped then (.funcDecl name ps body, st, none)
    else
      -- a FunctionDeclaration node carries the function's own scope
      let env2 := frameOfFunction ps body :: env
      match f st.applied env2 (.stmtV (.funcDecl name ps body)) with
      | some (.renameScope 0 o n) =>
        (.funcDecl name (renameParams o n ps) (renameStmts o n body), ⟨true, true⟩, none)
      | some (.renameScope (d + 1) o n) =>
        (.funcDecl name ps body, ⟨true, true⟩, some (d, o, n))
      | some _ => (.funcDecl name ps body, st, none)
      | none =>
        let r1 := visitLeaf f env2 st (.exprV (.ident name))
        let r2 := visitParams f env2 ps r1.1
        let r3 := visitStmts f env2 body r2.1
        match orRn r1.2 (orRn r2.2 r3.2.2) with
        | some (0, o, n) =>
          -- the rename targets this function's scope; it stopped the walk, so
          -- it is the only mutation and applies to the original subtree
          (.funcDecl name (renameParams o n ps) (renameStmts o n body), r3.2.1, none)
        | some (d + 1, o, n) => (.funcDecl name ps r3.1, r3.2.1, some (d, o, n))
        | none => (.funcDecl name ps r3.1, r3.2.1, none)
  | .varDecl kind ds, st =>
    if st.stopped then (.varDecl kind ds, st, none)
    else
      let r1 := visitLeaf f env st (.stmtV (.varDecl kind ds))
      let r2 := visitDecls f env kind ds r1.1
      (.varDecl (if r2.2.2.2 then "const" else kind) r2.1, r2.2.1, orRn r1.2 r2.2.2.1)
  | .exprStmt e, st =>
    if st.stopped then (.exprStmt e, st, none)
    else
      let r1 := visitLeaf f env st (.stmtV (.exprStmt e))
      let r2 := visitExpr f env none e r1.1
      (.exprStmt r2.1, r2.2.1, orRn r1.2 r2.2.2)
  | .ret a, st =>
    if st.stopped then (.ret a, st, none)
    else
      let r1 := visitLeaf f env st (.stmtV (.ret a))
      let r2 := visitOpt f env none a r1.1
      (.ret r2.1, r2.2.1, orRn r1.2 r2.2.2)

def visitStmts (f : EnterFn) (env : Env) : StmtList → St → StmtList × St × Option Rn
  | .nil, st => (.nil, st, none)
  | .cons s rest, st =>
    let r1 := visitStmt f env s st
    let r2 := visitStmts f env rest r1.2.1
    (.cons r1.1 r2.1, r2.2.1, orRn r1.2.2 r2.2.2)

def visitDecls (f : EnterFn) (env : Env) (declKind : String) :
    DeclList → St → DeclList × St × Option Rn × Bool
  | .nil, st => (.nil, st, none, false)
  | .cons1 name init rest, st =>
    if st.stopped then (.cons1 name init rest, st, none, false)
    else
      match f st.applied env (.declaratorV declKind name) with
      | some .mkConst => (.cons1 name init rest, ⟨true, true⟩, none, true)
      | some (.renameScope d o n) =>
        (.cons1 name init rest, ⟨true, true⟩, some (d, o, n), false)
      | some _ => (.cons1 name init rest, st, none, false)
      | none =>
        let r1 := visitLeaf f env st (.exprV (.ident name))
        let r2 := visitOpt f env (some name) init r1.1
        let r3 := visitDecls f env declKind rest r2.2.1
        (.cons1 name r2.1 r3.1, r3.2.1, orRn r1.2 (orRn r2.2.2 r3.2.2.1), r3.2.2.2)

end

/-- Run the traversal over a whole parsed module: the `Program` node first
(that is where a scope rename of a top-level binding fires), then the
statements.  Returns the possibly mutated tree and the
`transformationApplied` flag. -/
def runEngine (f : EnterFn) (prog : Program) : Program × Bool :=
  let env : Env := [frameOfBlock prog]
  let r0 := visitLeaf f env ⟨false, false⟩ .programV
  match r0.2 with
  | some (0, o, n) => (renameStmts o n prog, true)
  | some _ => (prog, r0.1.applied)
  | none =>
    let r := visitStmts f env prog r0.1
    match r.2.2 with
    | some (0, o, n) => (renameStmts o n prog, true)
    | some _ => (r.1, r.2.1.applied)
    | none => (r.1, r.2.1.applied)

/-- The engine exactly as the route wires it: the two-tier `enter` callback. -/
def applySuggestion (sugg : Suggestion) (prog : Program) : Program × Bool :=
  runEngine (enterRoute sugg) prog

/-! ## Code generation (`@babel/generator`, `retainLines: false`) -/

def joinComma (ps : List String) : String := String.intercalate ", " ps

mutual

def genExpr : Expr → String
  | .ident x => x
  | .numLit r => r
  | .strLit v => "\"" ++ v ++ "\""
  | .bin op l r => genExpr l ++ " " ++ op ++ " " ++ genExpr r
  | .assign op l r => genExpr l ++ " " ++ op ++ " " ++ genExpr r
  | .member obj p => genExpr obj ++ "." ++ p
  | .call c args => genExpr c ++ "(" ++ genArgs args ++ ")"
  | .objectLit props => "\x7b\n" ++ genProps props ++ "\n\x7d"
  | .tmpl qs es => "`" ++ genTmpl qs es ++ "`"

def genArgs : ExprList → String
  | .nil => ""
  | .cons e .nil => genExpr e
  | .cons e rest => genExpr e ++ ", " ++ genArgs rest

def genProps : PropList → String
  | .nil => ""
  | .cons k v .nil => "  " ++ k ++ ": " ++ genExpr v
  | .cons k v rest => "  " ++ k ++ ": " ++ genExpr v ++ ",\n" ++ genProps rest

def genTmpl (qs : List String) : ExprList → String
  | .cons e er => qs.headD "" ++ "$\x7b" ++ genExpr e ++ "\x7d" ++ genTmpl qs.tail er
  | .nil => String.join qs

end

def genOpt : OptExpr → String
  | .noneE => ""
  | .someE e => " = " ++ genExpr e

def indentLines (s : String) : String :=
  String.intercalate "\n" ((s.splitOn "\n").map (fun l => "  " ++ l))

mutual

def genStmts : StmtList → String
  | .nil => ""
  | .cons s .nil => genStmt s
  | .cons s rest => genStmt s ++ "\n" ++ genStmts rest

def genStmt : Stmt → String
  | .varDecl k ds => k ++ " " ++ genDecls ds ++ ";"
  | .exprStmt e => genExpr e ++ ";"
  | .funcDecl f ps body =>
    "function " ++ f ++ "(" ++ joinComma ps ++ ") \x7b\n" ++
      indentLines (genStmts body) ++ "\n\x7d"
  | .ret .noneE => "return;"
  | .ret (.someE e) => "return " ++ genExpr e ++ ";"

def genDecls : DeclList → String
  | .nil => ""
  | .cons1 name init .nil => name ++ genOpt init
  | .cons1 name init rest => name ++ genOpt init ++ ", " ++ genDecls rest

end

def genProgram (p : Program) : String := genStmts p

/-- Lines 233-240 of the route: generate from the tree only when a
transformation was applied, otherwise return the original `code` string. -/
def applyRoute (code : String) (sugg : Suggestion) (prog : Program) : String :=
  let r := applySuggestion sugg prog
  if r.2 then genProgram r.1 else code

/-! ## The HTTP handler

`POST` models the request validation and result assembly of the route.  A JSON
field is either a string or some non-string value; the suggestion object's
presence is a separate flag (`!suggestion`).  `parsed` stands for the Babel
parse of the code string (`none` models a parse throw, caught and turned into
a 500). -/

inductive JVal where
  | jstr (s : String)
  | jother
  deriving DecidableEq, Repr

inductive ApiResult where
  | ok (modifiedCode : String)
  | err (status : Nat)
  deriving DecidableEq, Repr

def POST (code : Option JVal) (suggPresent : Bool) (ty : Option JVal)
    (text : Option String) (params : List (String × String))
    (parsed : Option Program) : ApiResult :=
  match code with
  | some (.jstr c) =>
    -- `!code || typeof code !== "string"`: the empty string is falsy
    if c = "" then .err 400
    else if suggPresent = false then .err 400
    else
      match ty with
      | some (.jstr t) =>
        match parsed with
        | none => .err 500
        | some prog => .ok (applyRoute c ⟨text, t, params⟩ prog)
      | _ => .err 400
  | _ => .err 400

/-- The validation predicate for `code` (`!code || typeof code !== "string"`,
negated). -/
def validCode : Option JVal → Bool
  | some (.jstr s) => !(s = "")
  | _ => false

/-- The validation predicate for the suggestion
(`!suggestion || typeof suggestion.type !== "string"`, negated). -/
def validSuggestion (present : Bool) (ty : Option JVal) : Bool :=
  present &&
    (match ty with
     | some (.jstr _) => true
     | _ => false)

/-! ## Spec-modelled object-property rename -/

/-- Modelled from the spec: the object-property RENAME_VARIABLE visitors of
the apply route are described by the specification (the rule-table rows for
usage and definition sites, the traversal notes on `skip`, and the design note
on their not halting traversal) but are missing from the provided source
files, which contain only an earlier version of the route.  Usage site: a
property access whose accessed name equals `oldName` and, when
`params.variableName` is given, whose base is that identifier.  Definition
site: an object-literal property whose key equals `oldName` and, when
`params.variableName` is given, whose enclosing declaration binds that name.
Both rewrite the name to `newName` with no further precondition. -/
def propertyRenameRule (sugg : Suggestion) (v : NodeView) : Option Hit :=
  if sugg.type = "RENAME_VARIABLE" then
    match getParam sugg.params "oldName", getParam sugg.params "newName" with
    | some o, some n =>
      match v with
      | .exprV (.member base prop) =>
        if prop = o then
          match getParam sugg.params "variableName" with
          | some vn => if base = Expr.ident vn then some (.memberProp n) else none
          | none => some (.memberProp n)
        else none
      | .propV key encl =>
        if key = o then
          match getParam sugg.params "variableName" with
          | some vn => if encl = some vn then some (.propKey n) else none
          | none => some (.propKey n)
        else none
      | _ => none
    | _, _ => none
  else none

/-- Modelled from the spec: the route's `enter` extended with the
object-property rename visitors.  The property visitors are separate visitor
forms, not guarded by the shared applied flag — the spec treats the
definition-site and usage-site rewrites as one logical rename expressed as two
cooperating mutations. -/
def enterSpec (sugg : Suggestion) : EnterFn := fun applied env v =>
  match propertyRenameRule sugg v with
  | some h => some h
  | none => enterRoute sugg applied env v

/-- The engine including the spec-modelled object-property rename visitors. -/
def applySuggestionSpec (sugg : Suggestion) (prog : Program) : Program × Bool :=
  runEngine (enterSpec sugg) prog

/-! ## The nodes of a tree

`nodesProgram` enumerates, in visit order, every (scope chain, node view)
pair at which the traversal can consult the `enter` callback.  "The
suggestion's preconditions are satisfied at no node of the parsed tree" is
formalised as: the callback returns `none` at every pair of this list. -/

mutual

def nodesExpr (env : Env) (dn : Option String) : Expr → List (Env × NodeView)
  | .ident x => [(env, .exprV (.ident x))]
  | .numLit r => [(env, .exprV (.numLit r))]
  | .strLit v => [(env, .exprV (.strLit v))]
  | .bin op l r =>
    (env, .exprV (.bin op l r)) :: (nodesExpr env dn l ++ nodesExpr env dn r)
  | .assign op l r =>
    (env, .exprV (.assign op l r)) :: (nodesExpr env dn l ++ nodesExpr env dn r)
  | .member obj p =>
    (env, .exprV (.member obj p)) :: (nodesExpr env dn obj ++ [(env, .exprV (.ident p))])
  | .call c args =>
    (env, .exprV (.call c args)) :: (nodesExpr env dn c ++ nodesExprL env dn args)
  | .objectLit props => (env, .exprV (.objectLit props)) :: nodesProps env dn props
  | .tmpl qs es => (env, .exprV (.tmpl qs es)) :: nodesExprL env dn es

def nodesExprL (env : Env) (dn : Option String) : ExprList → List (Env × NodeView)
  | .nil => []
  | .cons e rest => nodesExpr env dn e ++ nodesExprL env dn rest

def nodesProps (env : Env) (dn : Option String) : PropList → List (Env × NodeView)
  | .nil => []
  | .cons k v rest =>
    (env, .propV k dn) :: (env, .exprV (.ident k)) ::
      (nodesExpr env dn v ++ nodesProps env dn rest)

end

def nodesOpt (env : Env) (dn : Option String) : OptExpr → List (Env × NodeView)
  | .noneE => []
  | .someE e => nodesExpr env dn e

mutual

def nodesStmt (env : Env) : Stmt → List (Env × NodeView)
  | .varDecl kind ds => (env, .stmtV (.varDecl kind ds)) :: nodesDecls env kind ds
  | .exprStmt e => (env, .stmtV (.exprStmt e)) :: nodesExpr env none e
  | .funcDecl name ps body =>
    (frameOfFunction ps body :: env, .stmtV (.funcDecl name ps body)) ::
      (frameOfFunction ps body :: env, .exprV (.ident name)) ::
        (ps.map (fun p => (frameOfFunction ps body :: env, .exprV (.ident p))) ++
          nodesStmts (frameOfFunction ps body :: env) body)
  | .ret a => (env, .stmtV (.ret a)) :: nodesOpt env none a

def nodesStmts (env : Env) : StmtList → List (Env × NodeView)
  | .nil => []
  | .cons s rest => nodesStmt env s ++ nodesStmts env rest

def nodesDecls (env : Env) (declKind : String) : DeclList → List (Env × NodeView)
  | .nil => []
  | .cons1 name init rest =>
    (env, .declaratorV declKind name) :: (env, .exprV (.ident name)) ::
      (nodesOpt env (some name) init ++ nodesDecls env declKind rest)

end

def nodesProgram (prog : Program) : List (Env × NodeView) :=
  ([frameOfBlock prog], .programV) :: nodesStmts [frameOfBlock prog] prog

/-- The callback fires at none of the listed nodes. -/
abbrev SilentOn (f : EnterFn) (L : List (Env × NodeView)) : Prop :=
  ∀ p ∈ L, f false p.1 p.2 = none

theorem silentOn_cons {f : EnterFn} {a : Env × NodeView} {l : List (Env × NodeView)} :
    SilentOn f (a :: l) ↔ (f false a.1 a.2 = none ∧ SilentOn f l) :=
  List.forall_mem_cons

theorem silentOn_append {f : EnterFn} {l1 l2 : List (Env × NodeView)} :
    SilentOn f (l1 ++ l2) ↔ (SilentOn f l1 ∧ SilentOn f l2) :=
  List.forall_mem_append

/-! ## No rule fires: the traversal is the identity -/


theorem noFireLeaf (f : EnterFn) (hf : ∀ env v, f true env v = none)
    (env : Env) (st : St) (v : NodeView) (h : f false env v = none) :
    visitLeaf f env st v = (st, none) := by
  have hE : f st.applied env v = none := by
    cases hA : st.applied
    · exact h
    · exact hf env v
  simp [visitLeaf, hE]

mutual

theorem noFireExpr (f : EnterFn) (hf : ∀ env v, f true env v = none)
    (env : Env) (dn : Option String) (e : Expr) (st : St)
    (hm : SilentOn f (nodesExpr env dn e)) :
    visitExpr f env dn e st = (e, st, none) := by
  cases e with
  | ident x =>
    have h0 : f false env (.exprV (.ident x)) = none :=
      hm (env, .exprV (.ident x)) (List.mem_cons_self _ _)
    have hE : f st.applied env (.exprV (.ident x)) = none := by
      cases hA : st.applied
      · exact h0
      · exact hf _ _
    simp [visitExpr, hE, exprHitStep]
  | numLit r =>
    have h0 : f false env (.exprV (.numLit r)) = none :=
      hm (env, .exprV (.numLit r)) (List.mem_cons_self _ _)
    have hE : f st.applied env (.exprV (.numLit r)) = none := by
      cases hA : st.applied
      · exact h0
      · exact hf _ _
    simp [visitExpr, hE, exprHitStep]
  | strLit v2 =>
    have h0 : f false env (.exprV (.strLit v2)) = none :=
      hm (env, .exprV (.strLit v2)) (List.mem_cons_self _ _)
    have hE : f st.applied env (.exprV (.strLit v2)) = none := by
      cases hA : st.applied
      · exact h0
      · exact hf _ _
    simp [visitExpr, hE, exprHitStep]
  | bin op l r =>
    obtain ⟨h0, hm1⟩ := silentOn_cons.mp hm
    obtain ⟨hl', hr'⟩ := silentOn_append.mp hm1
    have hE : f st.applied env (.exprV (.bin op l r)) = none := by
      cases hA : st.applied
      · exact h0
      · exact hf _ _
    have hl := noFireExpr f hf env dn l st hl'
    have hr := fun st' => noFireExpr f hf env dn r st' hr'
    simp [visitExpr, hE, exprHitStep, hl, hr, orRn]
  | assign op l r =>
    obtain ⟨h0, hm1⟩ := silentOn_cons.mp hm
    obtain ⟨hl', hr'⟩ := silentOn_append.mp hm1
    have hE : f st.applied env (.exprV (.assign op l r)) = none := by
      cases hA : st.applied
      · exact h0
      · exact hf _ _
    have hl := noFireExpr f hf env dn l st hl'
    have hr := fun st' => noFireExpr f hf env dn r st' hr'
    simp [visitExpr, hE, exprHitStep, hl, hr, orRn]
  | member obj p =>
    obtain ⟨h0, hm1⟩ := silentOn_cons.mp hm
    obtain ⟨ho', hp'⟩ := silentOn_append.mp hm1
    have hE : f st.applied env (.exprV (.member obj p)) = none := by
      cases hA : st.applied
      · exact h0
      · exact hf _ _
    have ho := noFireExpr f hf env dn obj st ho'
    have hpl := fun st' => noFireLeaf f hf env st' (.exprV (.ident p))
      (hp' (env, .exprV (.ident p)) (List.mem_singleton.mpr rfl))
    simp [visitExpr, hE, ho, hpl, orRn]
  | call c args =>
    obtain ⟨h0, hm1⟩ := silentOn_cons.mp hm
    obtain ⟨hc', ha'⟩ := silentOn_append.mp hm1
    have hE : f st.applied env (.exprV (.call c args)) = none := by
      cases hA : st.applied
      · exact h0
      · exact hf _ _
    have hc := noFireExpr f hf env dn c st hc'
    have ha := fun st' => noFireExprL f hf env dn args st' ha'
    simp [visitExpr, hE, exprHitStep, hc, ha, orRn]
  | objectLit props =>
    obtain ⟨h0, hm1⟩ := silentOn_cons.mp hm
    have hE : f st.applied env (.exprV (.objectLit props)) = none := by
      cases hA : st.applied
      · exact h0
      · exact hf _ _
    have hp := noFireProps f hf env dn props st hm1
    simp [visitExpr, hE, exprHitStep, hp]
  | tmpl qs es =>
    obtain ⟨h0, hm1⟩ := silentOn_cons.mp hm
    have hE : f st.applied env (.exprV (.tmpl qs es)) = none := by
      cases hA : st.applied
      · exact h0
      · exact hf _ _
    have he := noFireExprL f hf env dn es st hm1
    simp [visitExpr, hE, exprHitStep, he]

theorem noFireExprL (f : EnterFn) (hf : ∀ env v, f true env v = none)
    (env : Env) (dn : Option String) (es : ExprList) (st : St)
    (hm : SilentOn f (nodesExprL env dn es)) :
    visitExprList f env dn es st = (es, st, none) := by
  cases es with
  | nil => simp [visitExprList]
  | cons e rest =>
    obtain ⟨he', hr'⟩ := silentOn_append.mp hm
    have he := noFireExpr f hf env dn e st he'
    have hr := fun st' => noFireExprL f hf env dn rest st' hr'
    simp [visitExprList, he, hr, orRn]

theorem noFireProps (f : EnterFn) (hf : ∀ env v, f true env v = none)
    (env : Env) (dn : Option String) (props : PropList) (st : St)
    (hm : SilentOn f (nodesProps env dn props)) :
    visitProps f env dn props st = (props, st, none) := by
  cases props with
  | nil => simp [visitProps]
  | cons k v rest =>
    obtain ⟨h0, hm1⟩ := silentOn_cons.mp hm
    obtain ⟨h1, hm2⟩ := silentOn_cons.mp hm1
    obtain ⟨hv', hr'⟩ := silentOn_append.mp hm2
    have hE : f st.applied env (.propV k dn) = none := by
      cases hA : st.applied
      · exact h0
      · exact hf _ _
    have hkl := fun st' => noFireLeaf f hf env st' (.exprV (.ident k)) h1
    have hv := fun st' => noFireExpr f hf env dn v st' hv'
    have hr := fun st' => noFireProps f hf env dn rest st' hr'
    simp [visitProps, hE, hkl, hv, hr, orRn]

end


theorem noFireOpt (f : EnterFn) (hf : ∀ env v, f true env v = none)
    (env : Env) (dn : Option String) (a : OptExpr) (st : St)
    (hm : SilentOn f (nodesOpt env dn a)) :
    visitOpt f env dn a st = (a, st, none) := by
  cases a with
  | noneE => simp [visitOpt]
  | someE e =>
    have he := noFireExpr f hf env dn e st hm
    simp [visitOpt, he]

theorem noFireParams (f : EnterFn) (hf : ∀ env v, f true env v = none)
    (env : Env) (ps : List String) (st : St)
    (hm : ∀ p ∈ ps, f false env (.exprV (.ident p)) = none) :
    visitParams f env ps st = (st, none) := by
  induction ps generalizing st with
  | nil => simp [visitParams]
  | cons p rest ih =>
    have h1 := noFireLeaf f hf env st (.exprV (.ident p)) (hm p (List.mem_cons_self _ _))
    have h2 := fun st' => ih st' (fun p hp => hm p (List.mem_cons_of_mem _ hp))
    simp [visitParams, h1, h2, orRn]

mutual

theorem noFireStmt (f : EnterFn) (hf : ∀ env v, f true env v = none)
    (env : Env) (s : Stmt) (st : St) (hm : SilentOn f (nodesStmt env s)) :
    visitStmt f env s st = (s, st, none) := by
  cases s with
  | varDecl kind ds =>
    obtain ⟨h0, hm1⟩ := silentOn_cons.mp hm
    have h1 := fun st' => noFireLeaf f hf env st' (.stmtV (.varDecl kind ds)) h0
    have hd := fun st' => noFireDecls f hf env kind ds st' hm1
    simp [visitStmt, h1, hd, orRn]
  | exprStmt e =>
    obtain ⟨h0, hm1⟩ := silentOn_cons.mp hm
    have h1 := fun st' => noFireLeaf f hf env st' (.stmtV (.exprStmt e)) h0
    have he := fun st' => noFireExpr f hf env none e st' hm1
    simp [visitStmt, h1, he, orRn]
  | ret a =>
    obtain ⟨h0, hm1⟩ := silentOn_cons.mp hm
    have h1 := fun st' => noFireLeaf f hf env st' (.stmtV (.ret a)) h0
    have ha := fun st' => noFireOpt f hf env none a st' hm1
    simp [visitStmt, h1, ha, orRn]
  | funcDecl name ps body =>
    obtain ⟨h0, hm1⟩ := silentOn_cons.mp hm
    obtain ⟨h1, hm2⟩ := silentOn_cons.mp hm1
    obtain ⟨hp', hb'⟩ := silentOn_append.mp hm2
    have hE : f st.applied (frameOfFunction ps body :: env)
        (.stmtV (.funcDecl name ps body)) = none := by
      cases hA : st.applied
      · exact h0
      · exact hf _ _
    have hname := fun st' =>
      noFireLeaf f hf (frameOfFunction ps body :: env) st' (.exprV (.ident name)) h1
    have hps := fun st' =>
      noFireParams f hf (frameOfFunction ps body :: env) ps st'
        (fun p hp => hp' (frameOfFunction ps body :: env, .exprV (.ident p))
          (List.mem_map_of_mem _ hp))
    have hb := fun st' =>
      noFireStmts f hf (frameOfFunction ps body :: env) body st' hb'
    simp [visitStmt, hE, hname, hps, hb, orRn]

theorem noFireStmts (f : EnterFn) (hf : ∀ env v, f true env v = none)
    (env : Env) (ss : StmtList) (st : St) (hm : SilentOn f (nodesStmts env ss)) :
    visitStmts f env ss st = (ss, st, none) := by
  cases ss with
  | nil => simp [visitStmts]
  | cons s rest =>
    obtain ⟨hs', hr'⟩ := silentOn_append.mp hm
    have hs := noFireStmt f hf env s st hs'
    have hr := fun st' => noFireStmts f hf env rest st' hr'
    simp [visitStmts, hs, hr, orRn]

theorem noFireDecls (f : EnterFn) (hf : ∀ env v, f true env v = none)
    (env : Env) (declKind : String) (ds : DeclList) (st : St)
    (hm : SilentOn f (nodesDecls env declKind ds)) :
    visitDecls f env declKind ds st = (ds, st, none, false) := by
  cases ds with
  | nil => simp [visitDecls]
  | cons1 name init rest =>
    obtain ⟨h0, hm1⟩ := silentOn_cons.mp hm
    obtain ⟨h1, hm2⟩ := silentOn_cons.mp hm1
    obtain ⟨hi', hr'⟩ := silentOn_append.mp hm2
    have hE : f st.applied env (.declaratorV declKind name) = none := by
      cases hA : st.applied
      · exact h0
      · exact hf _ _
    have hid := fun st' => noFireLeaf f hf env st' (.exprV (.ident name)) h1
    have hi := fun st' => noFireOpt f hf env (some name) init st' hi'
    have hr := fun st' => noFireDecls f hf env declKind rest st' hr'
    simp [visitDecls, hE, hid, hi, hr, orRn]

end

/-- If the callback fires at no node of the tree, the engine returns the tree
unchanged with `transformationApplied = false`. -/
theorem noFireRun (f : EnterFn) (hf : ∀ env v, f true env v = none)
    (prog : Program) (hm : SilentOn f (nodesProgram prog)) :
    runEngine f prog = (prog, false) := by
  obtain ⟨h0, hm1⟩ := silentOn_cons.mp hm
  have hleaf := noFireLeaf f hf [frameOfBlock prog] ⟨false, false⟩ .programV h0
  have hs := noFireStmts f hf [frameOfBlock prog] prog ⟨false, false⟩ hm1
  simp [runEngine, hleaf, hs]

/-- Both tiers of the route's `enter` are guarded by the applied flag. -/
theorem enterRoute_applied (sugg : Suggestion) (env : Env) (v : NodeView) :
    enterRoute sugg true env v = none := by
  simp [enterRoute]



/-! ## Stop semantics: a stopped traversal visits and mutates nothing -/

theorem stopLeaf (f : EnterFn) (env : Env) (st : St) (v : NodeView)
    (h : st.stopped = true) : visitLeaf f env st v = (st, none) := by
  simp [visitLeaf, h]

mutual

theorem stopExpr (f : EnterFn) (env : Env) (dn : Option String) (e : Expr)
    (st : St) (h : st.stopped = true) : visitExpr f env dn e st = (e, st, none) := by
  cases e <;> simp [visitExpr, h]

theorem stopExprL (f : EnterFn) (env : Env) (dn : Option String) (es : ExprList)
    (st : St) (h : st.stopped = true) :
    visitExprList f env dn es st = (es, st, none) := by
  cases es with
  | nil => simp [visitExprList]
  | cons e rest =>
    simp [visitExprList, stopExpr f env dn e st h, stopExprL f env dn rest st h, orRn]

theorem stopProps (f : EnterFn) (env : Env) (dn : Option String) (props : PropList)
    (st : St) (h : st.stopped = true) :
    visitProps f env dn props st = (props, st, none) := by
  cases props <;> simp [visitProps, h]

end

theorem stopOpt (f : EnterFn) (env : Env) (dn : Option String) (a : OptExpr)
    (st : St) (h : st.stopped = true) : visitOpt f env dn a st = (a, st, none) := by
  cases a with
  | noneE => simp [visitOpt]
  | someE e => simp [visitOpt, stopExpr f env dn e st h]

theorem stopParams (f : EnterFn) (env : Env) (ps : List String) (st : St)
    (h : st.stopped = true) : visitParams f env ps st = (st, none) := by
  induction ps with
  | nil => simp [visitParams]
  | cons p rest ih => simp [visitParams, stopLeaf f env st _ h, ih, orRn]

mutual

theorem stopStmt (f : EnterFn) (env : Env) (s : Stmt) (st : St)
    (h : st.stopped = true) : visitStmt f env s st = (s, st, none) := by
  cases s <;> simp [visitStmt, h]

theorem stopStmts (f : EnterFn) (env : Env) (ss : StmtList) (st : St)
    (h : st.stopped = true) : visitStmts f env ss st = (ss, st, none) := by
  cases ss with
  | nil => simp [visitStmts]
  | cons s rest =>
    simp [visitStmts, stopStmt f env s st h, stopStmts f env rest st h, orRn]

theorem stopDecls (f : EnterFn) (env : Env) (declKind : String) (ds : DeclList)
    (st : St) (h : st.stopped = true) :
    visitDecls f env declKind ds st = (ds, st, none, false) := by
  cases ds <;> simp [visitDecls, h]

end





/-! ## At most one rewrite per invocation

For a callback whose hits all halt (every hit of the route's two tiers does;
only the spec-modelled property visitors return non-halting hits), the control
state either passes through a visit unchanged or becomes applied-and-stopped:
the first successful mutation sets both flags and everything after it is the
identity. -/

def isHalting : Hit → Bool
  | .memberProp _ => false
  | .propKey _ => false
  | _ => true

def Halting (f : EnterFn) : Prop :=
  ∀ a env v h, f a env v = some h → isHalting h = true

theorem onceHitStep (e : Expr) (st : St) (h : Option Hit)
    (kids : Expr × St × Option Rn)
    (hhalt : ∀ hh, h = some hh → isHalting hh = true)
    (hkids : kids.2.1 = st ∨ kids.2.1 = ⟨true, true⟩) :
    (exprHitStep e st h kids).2.1 = st ∨ (exprHitStep e st h kids).2.1 = ⟨true, true⟩ := by
  cases h with
  | none => simpa [exprHitStep] using hkids
  | some hh =>
    cases hh with
    | mkConst => left; simp [exprHitStep]
    | renameScope d o n => right; simp [exprHitStep]
    | replaceExpr e2 => right; simp [exprHitStep]
    | propKey nk => exact absurd (hhalt _ rfl) (by simp [isHalting])
    | memberProp np => exact absurd (hhalt _ rfl) (by simp [isHalting])

theorem onceLeaf (f : EnterFn) (hH : Halting f) (env : Env) (st : St)
    (v : NodeView) :
    (visitLeaf f env st v).1 = st ∨ (visitLeaf f env st v).1 = ⟨true, true⟩ := by
  by_cases hstop : st.stopped = true
  · left; simp [visitLeaf, hstop]
  · cases hfe : f st.applied env v with
    | none => left; simp [visitLeaf, hstop, hfe]
    | some hh =>
      cases hh <;> simp [visitLeaf, hstop, hfe]

mutual

theorem onceExpr (f : EnterFn) (hH : Halting f) (env : Env) (dn : Option String)
    (e : Expr) (st : St) :
    (visitExpr f env dn e st).2.1 = st ∨ (visitExpr f env dn e st).2.1 = ⟨true, true⟩ := by
  cases e with
  | ident x =>
    by_cases hstop : st.stopped = true
    · left; simp [visitExpr, hstop]
    · simp only [visitExpr, hstop, if_false]
      exact onceHitStep _ _ _ _ (fun hh hhe => hH _ _ _ _ hhe) (Or.inl rfl)
  | numLit r =>
    by_cases hstop : st.stopped = true
    · left; simp [visitExpr, hstop]
    · simp only [visitExpr, hstop, if_false]
      exact onceHitStep _ _ _ _ (fun hh hhe => hH _ _ _ _ hhe) (Or.inl rfl)
  | strLit v2 =>
    by_cases hstop : st.stopped = true
    · left; simp [visitExpr, hstop]
    · simp only [visitExpr, hstop, if_false]
      exact onceHitStep _ _ _ _ (fun hh hhe => hH _ _ _ _ hhe) (Or.inl rfl)
  | bin op l r =>
    by_cases hstop : st.stopped = true
    · left; simp [visitExpr, hstop]
    · simp only [visitExpr, hstop, if_false]
      apply onceHitStep _ _ _ _ (fun hh hhe => hH _ _ _ _ hhe)
      have h1 := onceExpr f hH env dn l st
      have h2 := onceExpr f hH env dn r (visitExpr f env dn l st).2.1
      rcases h2 with h2 | h2
      · rw [h2]; exact h1
      · right; exact h2
  | assign op l r =>
    by_cases hstop : st.stopped = true
    · left; simp [visitExpr, hstop]
    · simp only [visitExpr, hstop, if_false]
      apply onceHitStep _ _ _ _ (fun hh hhe => hH _ _ _ _ hhe)
      have h1 := onceExpr f hH env dn l st
      have h2 := onceExpr f hH env dn r (visitExpr f env dn l st).2.1
      rcases h2 with h2 | h2
      · rw [h2]; exact h1
      · right; exact h2
  | member obj p =>
    by_cases hstop : st.stopped = true
    · left; simp [visitExpr, hstop]
    · cases hfe : f st.applied env (.exprV (.member obj p)) with
      | none =>
        simp only [visitExpr, hstop, if_false, hfe]
        have h1 := onceExpr f hH env dn obj st
        have h2 := onceLeaf f hH env (visitExpr f env dn obj st).2.1 (.exprV (.ident p))
        rcases h2 with h2 | h2
        · rw [h2]; exact h1
        · right; exact h2
      | some hh =>
        have hhalt := hH _ _ _ _ hfe
        cases hh with
        | mkConst => left; simp [visitExpr, hstop, hfe]
        | renameScope d o n => right; simp [visitExpr, hstop, hfe]
        | replaceExpr e2 => right; simp [visitExpr, hstop, hfe]
        | propKey nk => exact absurd hhalt (by simp [isHalting])
        | memberProp np => exact absurd hhalt (by simp [isHalting])
  | call c args =>
    by_cases hstop : st.stopped = true
    · left; simp [visitExpr, hstop]
    · simp only [visitExpr, hstop, if_false]
      apply onceHitStep _ _ _ _ (fun hh hhe => hH _ _ _ _ hhe)
      have h1 := onceExpr f hH env dn c st
      have h2 := onceExprL f hH env dn args (visitExpr f env dn c st).2.1
      rcases h2 with h2 | h2
      · rw [h2]; exact h1
      · right; exact h2
  | objectLit props =>
    by_cases hstop : st.stopped = true
    · left; simp [visitExpr, hstop]
    · simp only [visitExpr, hstop, if_false]
      apply onceHitStep _ _ _ _ (fun hh hhe => hH _ _ _ _ hhe)
      exact onceProps f hH env dn props st
  | tmpl qs es =>
    by_cases hstop : st.stopped = true
    · left; simp [visitExpr, hstop]
    · simp only [visitExpr, hstop, if_false]
      apply onceHitStep _ _ _ _ (fun hh hhe => hH _ _ _ _ hhe)
      exact onceExprL f hH env dn es st

theorem onceExprL (f : EnterFn) (hH : Halting f) (env : Env) (dn : Option String)
    (es : ExprList) (st : St) :
    (visitExprList f env dn es st).2.1 = st ∨
      (visitExprList f env dn es st).2.1 = ⟨true, true⟩ := by
  cases es with
  | nil => left; simp [visitExprList]
  | cons e rest =>
    simp only [visitExprList]
    have h1 := onceExpr f hH env dn e st
    have h2 := onceExprL f hH env dn rest (visitExpr f env dn e st).2.1
    rcases h2 with h2 | h2
    · rw [h2]; exact h1
    · right; exact h2

theorem onceProps (f : EnterFn) (hH : Halting f) (env : Env) (dn : Option String)
    (props : PropList) (st : St) :
    (visitProps f env dn props st).2.1 = st ∨
      (visitProps f env dn props st).2.1 = ⟨true, true⟩ := by
  cases props with
  | nil => left; simp [visitProps]
  | cons k val rest =>
    by_cases hstop : st.stopped = true
    · left; simp [visitProps, hstop]
    · cases hfe : f st.applied env (.propV k dn) with
      | none =>
        simp only [visitProps, hstop, if_false, hfe]
        have h1 := onceLeaf f hH env st (.exprV (.ident k))
        have h2 := onceExpr f hH env dn val (visitLeaf f env st (.exprV (.ident k))).1
        have h3 := onceProps f hH env dn rest
          (visitExpr f env dn val (visitLeaf f env st (.exprV (.ident k))).1).2.1
        rcases h3 with h3 | h3
        · rw [h3]
          rcases h2 with h2 | h2
          · rw [h2]; exact h1
          · right; exact h2
        · right; exact h3
      | some hh =>
        have hhalt := hH _ _ _ _ hfe
        cases hh with
        | mkConst => left; simp [visitProps, hstop, hfe]
        | renameScope d o n => right; simp [visitProps, hstop, hfe]
        | replaceExpr e2 => left; simp [visitProps, hstop, hfe]
        | propKey nk => exact absurd hhalt (by simp [isHalting])
        | memberProp np => exact absurd hhalt (by simp [isHalting])

end





theorem onceOpt (f : EnterFn) (hH : Halting f) (env : Env) (dn : Option String)
    (a : OptExpr) (st : St) :
    (visitOpt f env dn a st).2.1 = st ∨ (visitOpt f env dn a st).2.1 = ⟨true, true⟩ := by
  cases a with
  | noneE => left; simp [visitOpt]
  | someE e =>
    simp only [visitOpt]
    exact onceExpr f hH env dn e st

theorem onceParams (f : EnterFn) (hH : Halting f) (env : Env) (ps : List String)
    (st : St) :
    (visitParams f env ps st).1 = st ∨ (visitParams f env ps st).1 = ⟨true, true⟩ := by
  induction ps generalizing st with
  | nil => left; simp [visitParams]
  | cons p rest ih =>
    simp only [visitParams]
    have h1 := onceLeaf f hH env st (.exprV (.ident p))
    have h2 := ih (visitLeaf f env st (.exprV (.ident p))).1
    rcases h2 with h2 | h2
    · rw [h2]; exact h1
    · right; exact h2

mutual

theorem onceStmt (f : EnterFn) (hH : Halting f) (env : Env) (s : Stmt) (st : St) :
    (visitStmt f env s st).2.1 = st ∨ (visitStmt f env s st).2.1 = ⟨true, true⟩ := by
  cases s with
  | varDecl kind ds =>
    by_cases hstop : st.stopped = true
    · left; simp [visitStmt, hstop]
    · simp only [visitStmt, hstop, if_false]
      have h1 := onceLeaf f hH env st (.stmtV (.varDecl kind ds))
      have h2 := onceDecls f hH env kind ds (visitLeaf f env st (.stmtV (.varDecl kind ds))).1
      rcases h2 with h2 | h2
      · rw [h2]; exact h1
      · right; exact h2
  | exprStmt e =>
    by_cases hstop : st.stopped = true
    · left; simp [visitStmt, hstop]
    · simp only [visitStmt, hstop, if_false]
      have h1 := onceLeaf f hH env st (.stmtV (.exprStmt e))
      have h2 := onceExpr f hH env none e (visitLeaf f env st (.stmtV (.exprStmt e))).1
      rcases h2 with h2 | h2
      · rw [h2]; exact h1
      · right; exact h2
  | ret a =>
    by_cases hstop : st.stopped = true
    · left; simp [visitStmt, hstop]
    · simp only [visitStmt, hstop, if_false]
      have h1 := onceLeaf f hH env st (.stmtV (.ret a))
      have h2 := onceOpt f hH env none a (visitLeaf f env st (.stmtV (.ret a))).1
      rcases h2 with h2 | h2
      · rw [h2]; exact h1
      · right; exact h2
  | funcDecl name ps body =>
    by_cases hstop : st.stopped = true
    · left; simp [visitStmt, hstop]
    · cases hfe : f st.applied (frameOfFunction ps body :: env)
        (.stmtV (.funcDecl name ps body)) with
      | some hh =>
        have hhalt := hH _ _ _ _ hfe
        cases hh with
        | mkConst => left; simp [visitStmt, hstop, hfe]
        | renameScope d o n =>
          cases d with
          | zero => right; simp [visitStmt, hstop, hfe]
          | succ d2 => right; simp [visitStmt, hstop, hfe]
        | replaceExpr e2 => left; simp [visitStmt, hstop, hfe]
        | propKey nk => exact absurd hhalt (by simp [isHalting])
        | memberProp np => exact absurd hhalt (by simp [isHalting])
      | none =>
        simp only [visitStmt, hstop, if_false, hfe]
        have h1 := onceLeaf f hH (frameOfFunction ps body :: env) st (.exprV (.ident name))
        have h2 := onceParams f hH (frameOfFunction ps body :: env) ps
          (visitLeaf f (frameOfFunction ps body :: env) st (.exprV (.ident name))).1
        have h3 := onceStmts f hH (frameOfFunction ps body :: env) body
          (visitParams f (frameOfFunction ps body :: env) ps
            (visitLeaf f (frameOfFunction ps body :: env) st (.exprV (.ident name))).1).1
        have hcomp : (visitStmts f (frameOfFunction ps body :: env) body
            (visitParams f (frameOfFunction ps body :: env) ps
              (visitLeaf f (frameOfFunction ps body :: env) st (.exprV (.ident name))).1).1).2.1 = st ∨
            (visitStmts f (frameOfFunction ps body :: env) body
            (visitParams f (frameOfFunction ps body :: env) ps
              (visitLeaf f (frameOfFunction ps body :: env) st (.exprV (.ident name))).1).1).2.1 = ⟨true, true⟩ := by
          rcases h3 with h3 | h3
          · rw [h3]
            rcases h2 with h2 | h2
            · rw [h2]; exact h1
            · right; exact h2
          · right; exact h3
        cases horn : orRn (visitLeaf f (frameOfFunction ps body :: env) st
            (.exprV (.ident name))).2
            (orRn (visitParams f (frameOfFunction ps body :: env) ps
              (visitLeaf f (frameOfFunction ps body :: env) st (.exprV (.ident name))).1).2
              (visitStmts f (frameOfFunction ps body :: env) body
                (visitParams f (frameOfFunction ps body :: env) ps
                  (visitLeaf f (frameOfFunction ps body :: env) st
                    (.exprV (.ident name))).1).1).2.2) with
        | none => simpa using hcomp
        | some r =>
          obtain ⟨d, o, n⟩ := r
          cases d with
          | zero => simpa using hcomp
          | succ d2 => simpa using hcomp

theorem onceStmts (f : EnterFn) (hH : Halting f) (env : Env) (ss : StmtList)
    (st : St) :
    (visitStmts f env ss st).2.1 = st ∨ (visitStmts f env ss st).2.1 = ⟨true, true⟩ := by
  cases ss with
  | nil => left; simp [visitStmts]
  | cons s rest =>
    simp only [visitStmts]
    have h1 := onceStmt f hH env s st
    have h2 := onceStmts f hH env rest (visitStmt f env s st).2.1
    rcases h2 with h2 | h2
    · rw [h2]; exact h1
    · right; exact h2

theorem onceDecls (f : EnterFn) (hH : Halting f) (env : Env) (declKind : String)
    (ds : DeclList) (st : St) :
    (visitDecls f env declKind ds st).2.1 = st ∨
      (visitDecls f env declKind ds st).2.1 = ⟨true, true⟩ := by
  cases ds with
  | nil => left; simp [visitDecls]
  | cons1 name init rest =>
    by_cases hstop : st.stopped = true
    · left; simp [visitDecls, hstop]
    · cases hfe : f st.applied env (.declaratorV declKind name) with
      | some hh =>
        have hhalt := hH _ _ _ _ hfe
        cases hh with
        | mkConst => right; simp [visitDecls, hstop, hfe]
        | renameScope d o n => right; simp [visitDecls, hstop, hfe]
        | replaceExpr e2 => left; simp [visitDecls, hstop, hfe]
        | propKey nk => exact absurd hhalt (by simp [isHalting])
        | memberProp np => exact absurd hhalt (by simp [isHalting])
      | none =>
        simp only [visitDecls, hstop, if_false, hfe]
        have h1 := onceLeaf f hH env st (.exprV (.ident name))
        have h2 := onceOpt f hH env (some name) init (visitLeaf f env st (.exprV (.ident name))).1
        have h3 := onceDecls f hH env declKind rest
          (visitOpt f env (some name) init (visitLeaf f env st (.exprV (.ident name))).1).2.1
        rcases h3 with h3 | h3
        · rw [h3]
          rcases h2 with h2 | h2
          · rw [h2]; exact h1
          · right; exact h2
        · right; exact h3

end






/-- Every hit of the structural tier halts the traversal. -/
theorem applyByType_halting (sugg : Suggestion) (env : Env) (v : NodeView)
    (h : Hit) (heq : applyByType sugg env v = some h) : isHalting h = true := by
  unfold applyByType at heq
  repeat' split at heq
  all_goals cases heq
  all_goals rfl

/-- Every hit of the fallback tier halts the traversal. -/
theorem applyByRegex_halting (sugg : Suggestion) (env : Env) (v : NodeView)
    (h : Hit) (heq : applyByRegex sugg env v = some h) : isHalting h = true := by
  unfold applyByRegex at heq
  repeat' split at heq
  all_goals cases heq
  all_goals rfl

/-- The route's enter callback only produces halting hits. -/
theorem enterRoute_halting (sugg : Suggestion) : Halting (enterRoute sugg) := by
  intro a env v h heq
  unfold enterRoute at heq
  split at heq
  · exact absurd heq (by simp)
  · split at heq
    next h2 heq2 =>
      cases heq
      exact applyByType_halting sugg env v _ heq2
    next heq2 =>
      exact applyByRegex_halting sugg env v _ heq

/-- A suggestion whose free text fires no fallback pattern makes the fallback
tier a no-op at every node. -/
theorem applyByRegex_silent (sugg : Suggestion) (env : Env) (v : NodeView)
    (h : fallbackSilent sugg.suggestion = true) :
    applyByRegex sugg env v = none := by
  cases htxt : sugg.suggestion with
  | none => simp [applyByRegex, htxt]
  | some t =>
    rw [htxt] at h
    simp only [fallbackSilent, Bool.and_eq_true, Option.isNone_iff_eq_none] at h
    obtain ⟨⟨h1, h2⟩, h3⟩ := h
    simp [applyByRegex, htxt, h1, h2, h3]






/-! ## Concrete snippets used by the testable properties -/

/-- The parse of `let x = 1;\nx = x + 1;`. -/
def progShortcut : Program :=
  .cons (.varDecl "let" (.cons1 "x" (.someE (.numLit "1")) .nil))
    (.cons (.exprStmt (.assign "=" (.ident "x") (.bin "+" (.ident "x") (.numLit "1")))) .nil)

/-- The parse of `let x = 1;\nx = 2;`. -/
def progReassigned : Program :=
  .cons (.varDecl "let" (.cons1 "x" (.someE (.numLit "1")) .nil))
    (.cons (.exprStmt (.assign "=" (.ident "x") (.numLit "2"))) .nil)

/-- The parse of `var x = 1;`. -/
def progVarX : Program :=
  .cons (.varDecl "var" (.cons1 "x" (.someE (.numLit "1")) .nil)) .nil

/-- The parse of `let a = 1;`. -/
def progLetA : Program :=
  .cons (.varDecl "let" (.cons1 "a" (.someE (.numLit "1")) .nil)) .nil

/-- The parse of `let a = 1;\nlet b = 2;`. -/
def progTwoLets : Program :=
  .cons (.varDecl "let" (.cons1 "a" (.someE (.numLit "1")) .nil))
    (.cons (.varDecl "let" (.cons1 "b" (.someE (.numLit "2")) .nil)) .nil)

/-- The parse of `console.log("Sum is: " + count);`. -/
def progConsoleSum : Program :=
  .cons (.exprStmt (.call (.member (.ident "console") "log")
    (.cons (.bin "+" (.strLit "Sum is: ") (.ident "count")) .nil))) .nil

/-- The parse of `const p = { old_name: 1 }; console.log(p.old_name);`. -/
def progObjProp : Program :=
  .cons (.varDecl "const" (.cons1 "p"
      (.someE (.objectLit (.cons "old_name" (.numLit "1") .nil))) .nil))
    (.cons (.exprStmt (.call (.member (.ident "console") "log")
      (.cons (.member (.ident "p") "old_name") .nil))) .nil)

/-- `progObjProp` with both the definition-site key and the usage-site
property renamed to `newName`. -/
def progObjPropRenamed : Program :=
  .cons (.varDecl "const" (.cons1 "p"
      (.someE (.objectLit (.cons "newName" (.numLit "1") .nil))) .nil))
    (.cons (.exprStmt (.call (.member (.ident "console") "log")
      (.cons (.member (.ident "p") "newName") .nil))) .nil)

/-- The parse of `let newName = 1;` (an already-applied rename). -/
def progAlreadyRenamed : Program :=
  .cons (.varDecl "let" (.cons1 "newName" (.someE (.numLit "1")) .nil)) .nil

/-- The free-form text `Rename <q>a<q> to <q>b<q>`. -/
def textRenameAB : String := "Rename " ++ quo "a" ++ " to " ++ quo "b"

/-! ## Per-claim node predicates and silence lemmas -/

/-- At this node, the binding resolver does not classify `x` as constant (or
the node is not a declarator of `x` at all). -/
def nonConstAt (x : String) (p : Env × NodeView) : Bool :=
  match p.2 with
  | .declaratorV _ n =>
    if n = x then decide ((getBinding p.1 x).map Binding.constant ≠ some true)
    else true
  | _ => true

/-- At this node, any declarator of `x` sits in a `var` declaration. -/
def varOnlyAt (x : String) (p : Env × NodeView) : Bool :=
  match p.2 with
  | .declaratorV k n => if n = x then decide (k = "var") else true
  | _ => true

/-- The closed set of suggestion tags the structural tier dispatches on. -/
def recognizedTypes : List String :=
  ["USE_CONST", "RENAME_VARIABLE", "RENAME_FUNCTION", "USE_TEMPLATE_LITERAL",
   "USE_OPERATOR_SHORTCUT"]

theorem enterRoute_useConst_nonconst (x : String) (txt : Option String)
    (hs : fallbackSilent txt = true) (p : Env × NodeView)
    (hp : nonConstAt x p = true) :
    enterRoute ⟨txt, "USE_CONST", [("variableName", x)]⟩ false p.1 p.2 = none := by
  obtain ⟨env, v⟩ := p
  have hreg := applyByRegex_silent ⟨txt, "USE_CONST", [("variableName", x)]⟩ env v hs
  have htype : applyByType ⟨txt, "USE_CONST", [("variableName", x)]⟩ env v = none := by
    cases v with
    | declaratorV k n =>
      by_cases hnx : n = x
      · subst hnx
        simp only [nonConstAt, if_pos rfl] at hp
        have hc := of_decide_eq_true hp
        simp [applyByType, getParam, hc]
      · simp [applyByType, getParam, hnx]
    | programV => simp [applyByType]
    | stmtV s => simp [applyByType]
    | exprV e => simp [applyByType]
    | propV k encl => simp [applyByType]
  simp [enterRoute, htype, hreg]

theorem enterRoute_useConst_var (x : String) (txt : Option String)
    (hs : fallbackSilent txt = true) (p : Env × NodeView)
    (hp : varOnlyAt x p = true) :
    enterRoute ⟨txt, "USE_CONST", [("variableName", x)]⟩ false p.1 p.2 = none := by
  obtain ⟨env, v⟩ := p
  have hreg := applyByRegex_silent ⟨txt, "USE_CONST", [("variableName", x)]⟩ env v hs
  have htype : applyByType ⟨txt, "USE_CONST", [("variableName", x)]⟩ env v = none := by
    cases v with
    | declaratorV k n =>
      by_cases hnx : n = x
      · subst hnx
        simp only [varOnlyAt, if_pos rfl] at hp
        have hc := of_decide_eq_true hp
        simp [applyByType, getParam, hc]
      · simp [applyByType, getParam, hnx]
    | programV => simp [applyByType]
    | stmtV s => simp [applyByType]
    | exprV e => simp [applyByType]
    | propV k encl => simp [applyByType]
  simp [enterRoute, htype, hreg]

theorem enterRoute_unrecognized (t : String) (txt : Option String)
    (params : List (String × String)) (ht : t ∉ recognizedTypes)
    (hs : fallbackSilent txt = true) (env : Env) (v : NodeView) :
    enterRoute ⟨txt, t, params⟩ false env v = none := by
  have h1 : ¬ t = "USE_CONST" := fun h => ht (by rw [h]; simp [recognizedTypes])
  have h2 : ¬ t = "RENAME_VARIABLE" := fun h => ht (by rw [h]; simp [recognizedTypes])
  have h3 : ¬ t = "RENAME_FUNCTION" := fun h => ht (by rw [h]; simp [recognizedTypes])
  have h4 : ¬ t = "USE_TEMPLATE_LITERAL" := fun h => ht (by rw [h]; simp [recognizedTypes])
  have h5 : ¬ t = "USE_OPERATOR_SHORTCUT" := fun h => ht (by rw [h]; simp [recognizedTypes])
  have hreg := applyByRegex_silent ⟨txt, t, params⟩ env v hs
  simp [enterRoute, applyByType, h1, h2, h3, h4, h5, hreg]



/-! ## The claims -/



def suggRenameProp : Suggestion :=
  ⟨none, "RENAME_VARIABLE",
    [("oldName", "old_name"), ("newName", "newName"), ("variableName", "p")]⟩

def suggRenameOldNew : Suggestion :=
  ⟨none, "RENAME_VARIABLE", [("oldName", "old_name"), ("newName", "newName")]⟩

def suggRenameAtoB : Suggestion :=
  ⟨none, "RENAME_VARIABLE", [("oldName", "a"), ("newName", "b")]⟩

/-- C1: on `const p = { old_name: 1 }; console.log(p.old_name);` with a
RENAME_VARIABLE suggestion carrying oldName/newName/variableName params, the
engine (with the spec-modelled object-property visitors) rewrites both the
object-literal definition key and the property-access usage site to `newName`,
reporting the pair as a single applied transformation. -/
theorem c1_property_rename_pair :
    applySuggestionSpec suggRenameProp progObjProp = (progObjPropRenamed, true) := by
  rfl

/-- C2: if the suggestion's preconditions are satisfied at no node of the
parsed tree (the enter callback fires nowhere), the route returns the original
code string verbatim and the applied flag stays false. -/
theorem c2_noop_when_nothing_matches (code : String) (sugg : Suggestion)
    (prog : Program) (hm : SilentOn (enterRoute sugg) (nodesProgram prog)) :
    applyRoute code sugg prog = code ∧ (applySuggestion sugg prog).2 = false := by
  have h := noFireRun (enterRoute sugg) (enterRoute_applied sugg) prog hm
  exact ⟨by simp [applyRoute, applySuggestion, h], by simp [applySuggestion, h]⟩

/-- C2 witness: re-applying an already-applied rename (`old_name` bound
nowhere in `let newName = 1;`) is a no-op, not an error. -/
theorem c2_noop_when_nothing_matches_witness :
    applyRoute "let newName = 1;" suggRenameOldNew progAlreadyRenamed = "let newName = 1;" ∧
      (applySuggestion suggRenameOldNew progAlreadyRenamed).2 = false :=
  c2_noop_when_nothing_matches "let newName = 1;" suggRenameOldNew progAlreadyRenamed
    (by decide)

/-- C3: with the route's enter callback, a stopped traversal visits and
mutates nothing further (it is the identity), and any traversal either leaves
the control state unchanged or sets applied-and-stopped together — the first
successful mutation halts the remainder of the invocation, so at most one
rewrite event occurs. -/
theorem c3_single_rewrite_halts (sugg : Suggestion) (env : Env) (ss : StmtList)
    (st : St) :
    (st.stopped = true → visitStmts (enterRoute sugg) env ss st = (ss, st, none)) ∧
    ((visitStmts (enterRoute sugg) env ss st).2.1 = st ∨
      (visitStmts (enterRoute sugg) env ss st).2.1 = ⟨true, true⟩) :=
  ⟨fun h => stopStmts (enterRoute sugg) env ss st h,
   onceStmts (enterRoute sugg) (enterRoute_halting sugg) env ss st⟩

/-- C3 witness at a stopped state over a concrete program. -/
theorem c3_single_rewrite_halts_witness :
    visitStmts (enterRoute suggRenameAtoB) [frameOfBlock progTwoLets] progTwoLets
        ⟨true, true⟩ = (progTwoLets, ⟨true, true⟩, none) ∧
      ((visitStmts (enterRoute suggRenameAtoB) [frameOfBlock progTwoLets] progTwoLets
          ⟨true, true⟩).2.1 = ⟨true, true⟩ ∨
        (visitStmts (enterRoute suggRenameAtoB) [frameOfBlock progTwoLets] progTwoLets
          ⟨true, true⟩).2.1 = ⟨true, true⟩) :=
  ⟨(c3_single_rewrite_halts suggRenameAtoB [frameOfBlock progTwoLets] progTwoLets
      ⟨true, true⟩).1 rfl,
   (c3_single_rewrite_halts suggRenameAtoB [frameOfBlock progTwoLets] progTwoLets
      ⟨true, true⟩).2⟩

/-- C4 counterexample: on `let a = 1;\nlet b = 2;`, renaming `a` to `b` —
with `b` already bound in the same scope — is not refused: the engine renames
and returns changed source, merging the two bindings. -/
theorem c4_counterexample :
    hasBinding [frameOfBlock progTwoLets] "b" = true ∧
    applyRoute "let a = 1;\nlet b = 2;" suggRenameAtoB progTwoLets =
      "let b = 1;\nlet b = 2;" ∧
    ("let b = 1;\nlet b = 2;" : String) ≠ "let a = 1;\nlet b = 2;" :=
  ⟨by decide, by rfl, by decide⟩

/-- C4 amended: a RENAME_VARIABLE rename fires as soon as `oldName` has a
(non-function) binding, with no check on `newName` whatsoever — even when
`newName` is already bound in the same scope, the engine performs the scope
rename (which can merge two distinct bindings). -/
theorem c4_rename_ignores_conflict (prog : Program) (o n : String) (b : Binding)
    (ho : o ≠ "") (hn : n ≠ "")
    (hb : lookupFrame (frameOfBlock prog) o = some b)
    (hk : b.kind ≠ .bfunc) (hNew : hasBinding [frameOfBlock prog] n = true) :
    applySuggestion ⟨none, "RENAME_VARIABLE", [("oldName", o), ("newName", n)]⟩ prog =
      (renameStmts o n prog, true) := by
  have hget : getBinding [frameOfBlock prog] o = some b := by simp [getBinding, hb]
  have hhas : hasBinding [frameOfBlock prog] o = true := by simp [hasBinding, hget]
  have hfn : isFuncBinding [frameOfBlock prog] o = false := by
    simp [isFuncBinding, hget, hk]
  have hdep : depthOf [frameOfBlock prog] o = 0 := by simp [depthOf, hb]
  have henter : enterRoute ⟨none, "RENAME_VARIABLE", [("oldName", o), ("newName", n)]⟩
      false [frameOfBlock prog] .programV = some (.renameScope 0 o n) := by
    simp [enterRoute, applyByType, getParam, ho, hn, hhas, hfn, hdep]
  simp [applySuggestion, runEngine, visitLeaf, henter]

/-- C4 amended witness: the concrete conflicting rename goes through. -/
theorem c4_rename_ignores_conflict_witness :
    applySuggestion suggRenameAtoB progTwoLets = (renameStmts "a" "b" progTwoLets, true) :=
  c4_rename_ignores_conflict progTwoLets "a" "b" ⟨.blet, true⟩ (by decide) (by decide)
    (by decide) (by decide) (by decide)






/-- C5: USE_CONST applies only when the binding resolver classifies the
binding as constant: when at every node of the tree the resolver does not
report `x` constant (in particular when `x` is reassigned after declaration),
and the free text fires no fallback pattern, the code is returned unchanged. -/
theorem c5_mutability_guard (code : String) (x : String) (txt : Option String)
    (prog : Program) (hs : fallbackSilent txt = true)
    (hc : ∀ p ∈ nodesProgram prog, nonConstAt x p = true) :
    applyRoute code ⟨txt, "USE_CONST", [("variableName", x)]⟩ prog = code ∧
      (applySuggestion ⟨txt, "USE_CONST", [("variableName", x)]⟩ prog).2 = false := by
  have hm : SilentOn (enterRoute ⟨txt, "USE_CONST", [("variableName", x)]⟩)
      (nodesProgram prog) :=
    fun p hp => enterRoute_useConst_nonconst x txt hs p (hc p hp)
  have h := noFireRun _ (enterRoute_applied _) prog hm
  exact ⟨by simp [applyRoute, applySuggestion, h], by simp [applySuggestion, h]⟩

/-- C5 witness: `let x = 1;\nx = 2;` with variableName `x` is unchanged. -/
theorem c5_mutability_guard_witness :
    applyRoute "let x = 1;\nx = 2;" ⟨none, "USE_CONST", [("variableName", "x")]⟩
        progReassigned = "let x = 1;\nx = 2;" ∧
      (applySuggestion ⟨none, "USE_CONST", [("variableName", "x")]⟩ progReassigned).2 =
        false :=
  c5_mutability_guard "let x = 1;\nx = 2;" "x" none progReassigned (by decide) (by decide)

def suggConstWithRenameText : Suggestion :=
  ⟨some textRenameAB, "USE_CONST", [("variableName", "a")]⟩

/-- C6 counterexample: on `let a = 1;` with a USE_CONST suggestion whose free
text reads `Rename <q>a<q> to <q>b<q>`, the structural USE_CONST rule matches
at the declarator node of the tree, yet the fallback tier — consulted per
node, not only after the whole structural pass fails — fires first at the
Program node and renames, so a fallback mutation fires in an invocation where
a structural rule matches. -/
theorem c6_counterexample :
    ([frameOfBlock progLetA], NodeView.declaratorV "let" "a") ∈ nodesProgram progLetA ∧
    applyByType suggConstWithRenameText [frameOfBlock progLetA]
      (.declaratorV "let" "a") = some .mkConst ∧
    applyByType suggConstWithRenameText [frameOfBlock progLetA] .programV = none ∧
    applyByRegex suggConstWithRenameText [frameOfBlock progLetA] .programV =
      some (.renameScope 0 "a" "b") ∧
    applyRoute "let a = 1;" suggConstWithRenameText progLetA = "let b = 1;" ∧
    ("let b = 1;" : String) ≠ "let a = 1;" :=
  ⟨by decide, by rfl, by rfl, by rfl, by rfl, by decide⟩

/-- C6 amended: the fallback tier is consulted at every visited node where no
transformation has yet been applied — gated by the applied flag and by the
structural tier's result at that same node only — and is skipped entirely
when the suggestion carries no free-form description text. -/
theorem c6_fallback_gating (sugg : Suggestion) (env : Env) (v : NodeView) :
    enterRoute sugg true env v = none ∧
    (∀ h, applyByType sugg env v = some h → enterRoute sugg false env v = some h) ∧
    (sugg.suggestion = none → applyByRegex sugg env v = none) := by
  refine ⟨enterRoute_applied sugg env v, ?_, ?_⟩
  · intro h hh
    simp [enterRoute, hh]
  · intro ht
    simp [applyByRegex, ht]

/-- C6 amended witness. -/
theorem c6_fallback_gating_witness :
    applyByRegex ⟨none, "OTHER", []⟩ [] .programV = none :=
  (c6_fallback_gating ⟨none, "OTHER", []⟩ [] .programV).2.2 rfl

def suggShortcutX : Suggestion :=
  ⟨none, "USE_OPERATOR_SHORTCUT", [("operator", "+="), ("variable", "x")]⟩

/-- C7: `let x = 1;\nx = x + 1;` with USE_OPERATOR_SHORTCUT (+=, x) becomes
`let x = 1;\nx += 1;`; in general a plain assignment `v = v <op> rhs` whose
left identifier equals params.variable and whose compound form equals
params.operator is rewritten to `v <op>= rhs`. -/
theorem c7_operator_shortcut :
    (genProgram progShortcut = "let x = 1;\nx = x + 1;" ∧
     applyRoute "let x = 1;\nx = x + 1;" suggShortcutX progShortcut =
       "let x = 1;\nx += 1;") ∧
    (∀ (v op : String) (rhs : Expr), v ≠ "" →
      (op = "+" ∨ op = "-" ∨ op = "*" ∨ op = "/") →
      applySuggestion
          ⟨none, "USE_OPERATOR_SHORTCUT", [("operator", op ++ "="), ("variable", v)]⟩
          (.cons (.exprStmt (.assign "=" (.ident v) (.bin op (.ident v) rhs))) .nil) =
        (.cons (.exprStmt (.assign (op ++ "=") (.ident v) rhs)) .nil, true)) := by
  refine ⟨⟨by rfl, by rfl⟩, ?_⟩
  intro v op rhs hv hop
  rcases hop with h | h | h | h <;> subst h <;>
    simp [applySuggestion, runEngine, frameOfBlock, topDecls, topDeclsStmt, visitLeaf,
      enterRoute, applyByType, applyByRegex, getParam, visitStmts, visitStmt, visitExpr,
      exprHitStep, compoundMatches, orRn, hv]

/-- C7 witness for the general compound rewrite. -/
theorem c7_operator_shortcut_witness :
    applySuggestion ⟨none, "USE_OPERATOR_SHORTCUT", [("operator", "-="), ("variable", "y")]⟩
        (.cons (.exprStmt (.assign "=" (.ident "y") (.bin "-" (.ident "y") (.numLit "3")))) .nil) =
      (.cons (.exprStmt (.assign "-=" (.ident "y") (.numLit "3"))) .nil, true) :=
  c7_operator_shortcut.2 "y" "-" (.numLit "3") (by decide) (Or.inr (Or.inl rfl))

def suggTemplate : Suggestion := ⟨none, "USE_TEMPLATE_LITERAL", []⟩

/-- C8: a `console.log` call whose first argument is a binary `+` of a string
literal and an identifier — in either order — has that argument replaced by
the equivalent template literal; concretely,
`console.log("Sum is: " + count);` becomes an interpolated string embedding
`count`. -/
theorem c8_template_literal :
    (genProgram progConsoleSum = "console.log(\"Sum is: \" + count);" ∧
     applyRoute "console.log(\"Sum is: \" + count);" suggTemplate progConsoleSum =
       "console.log(`Sum is: ${count}`);") ∧
    (∀ (s x : String),
      applySuggestion suggTemplate
          (.cons (.exprStmt (.call (.member (.ident "console") "log")
            (.cons (.bin "+" (.strLit s) (.ident x)) .nil))) .nil) =
        (.cons (.exprStmt (.call (.member (.ident "console") "log")
          (.cons (.tmpl [s, ""] (.cons (.ident x) .nil)) .nil))) .nil, true) ∧
      applySuggestion suggTemplate
          (.cons (.exprStmt (.call (.member (.ident "console") "log")
            (.cons (.bin "+" (.ident x) (.strLit s)) .nil))) .nil) =
        (.cons (.exprStmt (.call (.member (.ident "console") "log")
          (.cons (.tmpl ["", s] (.cons (.ident x) .nil)) .nil))) .nil, true)) := by
  refine ⟨⟨by rfl, by rfl⟩, ?_⟩
  intro s x
  exact ⟨by rfl, by rfl⟩






/-- C9 counterexample: a request with the unrecognized tag `OTHER` whose free
text matches the rename fallback is not treated as a no-op — the engine
returns successfully, but with fallback-modified code, not the original. -/
theorem c9_counterexample :
    ("OTHER" ∉ recognizedTypes) ∧
    POST (some (.jstr "let a = 1;")) true (some (.jstr "OTHER")) (some textRenameAB)
      [] (some progLetA) = .ok "let b = 1;" ∧
    (ApiResult.ok "let b = 1;" ≠ ApiResult.ok "let a = 1;") :=
  ⟨by decide, by rfl, by decide⟩

/-- C9 amended: the apply endpoint returns 400 exactly when `code` is
missing/invalid or the suggestion object/`suggestion.type` is missing or not
a string; a valid request never errors on an unrecognized tag — it returns
the engine's output, which is the original code whenever the free-text
fallback also finds no match. -/
theorem c9_validation_and_unrecognized_tag :
    (∀ (code : Option JVal) (present : Bool) (ty : Option JVal)
        (text : Option String) (params : List (String × String))
        (parsed : Option Program),
      POST code present ty text params parsed = .err 400 ↔
        (validCode code = false ∨ validSuggestion present ty = false)) ∧
    (∀ (c t : String) (text : Option String) (params : List (String × String))
        (prog : Program), c ≠ "" →
      POST (some (.jstr c)) true (some (.jstr t)) text params (some prog) =
        .ok (applyRoute c ⟨text, t, params⟩ prog)) ∧
    (∀ (c t : String) (text : Option String) (params : List (String × String))
        (prog : Program), c ≠ "" → t ∉ recognizedTypes → fallbackSilent text = true →
      POST (some (.jstr c)) true (some (.jstr t)) text params (some prog) = .ok c) := by
  refine ⟨?_, ?_, ?_⟩
  · intro code present ty text params parsed
    cases code with
    | none => simp [POST, validCode]
    | some cv =>
      cases cv with
      | jother => simp [POST, validCode]
      | jstr c =>
        by_cases hc : c = ""
        · simp [POST, validCode, hc]
        · cases present with
          | false => simp [POST, validCode, validSuggestion, hc]
          | true =>
            cases ty with
            | none => simp [POST, validCode, validSuggestion, hc]
            | some tv =>
              cases tv with
              | jother => simp [POST, validCode, validSuggestion, hc]
              | jstr t =>
                cases parsed with
                | none => simp [POST, validCode, validSuggestion, hc]
                | some prog => simp [POST, validCode, validSuggestion, hc]
  · intro c t text params prog hc
    simp [POST, hc]
  · intro c t text params prog hc ht hs
    have hm : SilentOn (enterRoute ⟨text, t, params⟩) (nodesProgram prog) :=
      fun p _ => enterRoute_unrecognized t text params ht hs p.1 p.2
    have h := noFireRun _ (enterRoute_applied _) prog hm
    simp [POST, hc, applyRoute, applySuggestion, h]

/-- C9 amended witness. -/
theorem c9_validation_and_unrecognized_tag_witness :
    POST (some (.jstr "let a = 1;")) true (some (.jstr "OTHER")) none []
        (some progLetA) = .ok "let a = 1;" ∧
      (POST none true (some (.jstr "X")) none [] none = .err 400 ↔
        (validCode none = false ∨ validSuggestion true (some (.jstr "X")) = false)) :=
  ⟨c9_validation_and_unrecognized_tag.2.2 "let a = 1;" "OTHER" none [] progLetA
      (by decide) (by decide) (by decide),
   c9_validation_and_unrecognized_tag.1 none true (some (.jstr "X")) none [] none⟩

/-- C10 (implicit): USE_CONST only rewrites `let` declarations: when every
declarator of `x` in the tree sits in a `var` declaration — even if the
binding is never reassigned — the code is returned unchanged. -/
theorem c10_var_not_upgraded (code : String) (x : String) (txt : Option String)
    (prog : Program) (hs : fallbackSilent txt = true)
    (hv : ∀ p ∈ nodesProgram prog, varOnlyAt x p = true) :
    applyRoute code ⟨txt, "USE_CONST", [("variableName", x)]⟩ prog = code ∧
      (applySuggestion ⟨txt, "USE_CONST", [("variableName", x)]⟩ prog).2 = false := by
  have hm : SilentOn (enterRoute ⟨txt, "USE_CONST", [("variableName", x)]⟩)
      (nodesProgram prog) :=
    fun p hp => enterRoute_useConst_var x txt hs p (hv p hp)
  have h := noFireRun _ (enterRoute_applied _) prog hm
  exact ⟨by simp [applyRoute, applySuggestion, h], by simp [applySuggestion, h]⟩

/-- C10 witness: `var x = 1;` is never upgraded, though `x` is constant. -/
theorem c10_var_not_upgraded_witness :
    applyRoute "var x = 1;" ⟨none, "USE_CONST", [("variableName", "x")]⟩ progVarX =
        "var x = 1;" ∧
      (applySuggestion ⟨none, "USE_CONST", [("variableName", "x")]⟩ progVarX).2 = false :=
  c10_var_not_upgraded "var x = 1;" "x" none progVarX (by decide) (by decide)



end Refactor
